import Mathlib

/-!
Shallow embedding of the maggtomic datom store (src/maggtomic/__init__.py,
src/maggtomic/query.py, src/maggtomic/util.py).

Modelling conventions:
* MongoDB/BSON dynamic values are the inductive `PyVal`; an ObjectId is
  `PyVal.oid sec inc` (its 32 high bits encode the creation second `sec`,
  the remaining bits are opaque and collapsed into `inc`).
* A stored document is a `Datom` (fields e a v t o, as enforced by the
  collection's JSON-schema validator).
* Python dicts are association lists with unique keys, built with `pyInsert`
  (replace-in-place-or-append, which is Python's dict-assignment semantics).
* In-place mutation (pydash `set_`) is made explicit: a function that mutates
  an argument returns the post-call state of that argument.
* Nondeterminism (`ObjectId()`, `generate_id()`) is made explicit as supply
  lists threaded through a `DBState`; an exhausted supply is an error that has
  no Python counterpart and never occurs in the theorems below.
* Python exceptions are `Except PyError`; Python string handling is modelled
  on the ASCII fragment (the repository only manipulates ASCII identifiers,
  URIs and Crockford base-32 text).
-/

deriving instance DecidableEq for Except

namespace Maggtomic

/-- A dynamic (BSON/Python) runtime value. -/
inductive PyVal : Type where
  | oid (sec inc : Nat)
  | str (s : String)
  | int (n : Int)
  | dt (n : Nat)
  | bool (b : Bool)
deriving DecidableEq, Repr

/-- A Python exception, by kind. -/
inductive PyError : Type where
  | typeErr (msg : String)
  | valueErr (msg : String)
  | runtimeErr (msg : String)
  | writeErr (msg : String)
deriving DecidableEq, Repr

/-- A stored datom document: the five fields of the collection schema
(`{e, a, v, t, o}`, `src/maggtomic/__init__.py` validator). -/
structure Datom : Type where
  e : PyVal
  a : PyVal
  v : PyVal
  t : PyVal
  o : Bool
deriving DecidableEq, Repr

/-- `OID_URIREF = ObjectId.from_datetime(1970-01-01T00:00:00Z)`. -/
def OID_URIREF : PyVal := .oid 0 0

/-- `OID_GENERATED_AT_TIME = ObjectId.from_datetime(1970-01-01T00:00:01Z)`. -/
def OID_GENERATED_AT_TIME : PyVal := .oid 1 0

/-- `OID_VAEM_ID = ObjectId.from_datetime(1970-01-01T00:00:02Z)`. -/
def OID_VAEM_ID : PyVal := .oid 2 0

/-- `OID_QUDT_VALUE = ObjectId.from_datetime(1970-01-01T00:00:03Z)`. -/
def OID_QUDT_VALUE : PyVal := .oid 3 0

/-- Association-list lookup (first occurrence; a Python dict has unique
keys, so this is dict access). -/
def alookup {α β : Type} [DecidableEq α] : List (α × β) → α → Option β
  | [], _ => none
  | (k, v) :: rest, k' => if k = k' then some v else alookup rest k'

/-- Python `d[k] = v` on a dict: replace in place if the key exists,
append otherwise. -/
def pyInsert {α β : Type} [DecidableEq α] : List (α × β) → α → β → List (α × β)
  | [], k, v => [(k, v)]
  | (k', v') :: rest, k, v =>
    if k' = k then (k, v) :: rest else (k', v') :: pyInsert rest k v

/-- Python `base.update(upd)`: fold dict assignment over `upd`. -/
def pyUpdate {α β : Type} [DecidableEq α] (base upd : List (α × β)) : List (α × β) :=
  upd.foldl (fun m kv => pyInsert m kv.1 kv.2) base

/-- BSON order on same-type values (MongoDB comparisons are type-bracketed:
`$lte` etc. never match across the types used by this repository). -/
def pyLe : PyVal → PyVal → Bool
  | .oid s1 i1, .oid s2 i2 => s1 < s2 || (s1 = s2 && i1 ≤ i2)
  | .str a, .str b => a ≤ b
  | .int a, .int b => a ≤ b
  | .dt a, .dt b => a ≤ b
  | .bool a, .bool b => !a || b
  | _, _ => false

/-- A scalar or array argument of a query operator (`$lte` takes a scalar,
`$in` takes an array). -/
inductive FArg : Type where
  | scalar (v : PyVal)
  | arr (vs : List PyVal)
deriving DecidableEq, Repr

/-- One field condition of a MongoDB filter document: either a direct
equality or an operator object. -/
inductive FCond : Type where
  | eqv (v : PyVal)
  | ops (l : List (String × FArg))
deriving DecidableEq, Repr

/-- A MongoDB filter document: field name to condition, in insertion order. -/
abbrev Filter : Type := List (String × FCond)

/-- Evaluate one Mongo operator on a field value. -/
def matchOp (op : String) (arg : FArg) (x : PyVal) : Bool :=
  match op, arg with
  | "$lte", .scalar v => pyLe x v
  | "$gte", .scalar v => pyLe v x
  | "$lt", .scalar v => pyLe x v && !(x = v : Bool)
  | "$gt", .scalar v => pyLe v x && !(x = v : Bool)
  | "$eq", .scalar v => x = v
  | "$ne", .scalar v => !(x = v : Bool)
  | "$in", .arr vs => vs.contains x
  | _, _ => false

/-- Evaluate one field condition on a field value. -/
def matchCond (x : PyVal) : FCond → Bool
  | .eqv v => x = v
  | .ops l => l.all fun p => matchOp p.1 p.2 x

/-- Project a document field by its name. -/
def getField (d : Datom) : String → Option PyVal
  | "e" => some d.e
  | "a" => some d.a
  | "v" => some d.v
  | "t" => some d.t
  | "o" => some (.bool d.o)
  | _ => none

/-- A document matches a filter when every field condition holds. -/
def matchFilter (d : Datom) (f : Filter) : Bool :=
  f.all fun p =>
    match getField d p.1 with
    | some x => matchCond x p.2
    | none => false

/-- `coll.find(filter)`: the matching documents, in store order. -/
def findDocs (store : List Datom) (f : Filter) : List Datom :=
  store.filter fun d => matchFilter d f

/-! ### The Crockford base-32 codec (`src/maggtomic/util.py`)

`util.py` delegates to the external `base32_lib` package, which is not part of
this repository; the codec below is modelled from the spec: Crockford base-32
over the alphabet `0123456789abcdefghjkmnpqrstvwxyz`, an appended two-digit
ISO-7064 mod-97-10 checksum, zero-padding to a minimum length, a hyphen every
`split_every` characters, and decode normalisation (lowercase, strip hyphens,
map I/i/l/L to 1 and O/o to 0, then reject anything outside the alphabet). -/

/-- The Crockford base-32 alphabet (modelled from the spec). -/
def B32_CHARS : List Char := "0123456789abcdefghjkmnpqrstvwxyz".data

/-- The encoding character of one base-32 digit. -/
def b32Digit (n : Nat) : Char := B32_CHARS.getD n '0'

/-- Base-32 digits of a number, least significant first (the encode loop);
fuel-indexed so that it is structural (any fuel `≥ n` gives the digits of
`n`, since `n / 32 < n`). -/
def b32DigitsRevF : Nat → Nat → List Char
  | _, 0 => []
  | 0, _ => []
  | fuel + 1, n + 1 => b32Digit ((n + 1) % 32) :: b32DigitsRevF fuel ((n + 1) / 32)

/-- Base-32 digits of a number, least significant first. -/
def b32DigitsRev (n : Nat) : List Char := b32DigitsRevF n n

/-- Base-32 representation of a number, most significant first; `0` encodes
as `"0"`. -/
def natToB32 (n : Nat) : List Char :=
  if n = 0 then ['0'] else (b32DigitsRev n).reverse

/-- The value of one base-32 character (only applied to alphabet members). -/
def b32CharVal (c : Char) : Nat := B32_CHARS.indexOf c

/-- The number denoted by a base-32 digit string (the decode loop). -/
def b32Val (l : List Char) : Nat :=
  l.foldl (fun a c => a * 32 + b32CharVal c) 0

/-- The ISO-7064 mod-97-10 checksum of a number: `98 - (n·100 mod 97)`,
always in `1..98`, rendered as two decimal digits. -/
def checksumOf (n : Nat) : Nat := 98 - (n * 100) % 97

/-- A decimal digit character. -/
def decDigit (n : Nat) : Char := Char.ofNat ('0'.toNat + n)

/-- The two checksum characters appended by encode. -/
def checksumChars (n : Nat) : List Char :=
  [decDigit (checksumOf n / 10), decDigit (checksumOf n % 10)]

/-- Split into chunks of `k` characters from the left (fuel-indexed; the fuel
is instantiated with the list length, which suffices for `k ≥ 1`). -/
def chunksF : Nat → Nat → List Char → List (List Char)
  | _, _, [] => []
  | 0, _, _ => []
  | Nat.succ fuel, k, l => l.take k :: chunksF fuel k (l.drop k)

/-- `"-".join(splits)`. -/
def joinHyphen : List (List Char) → List Char
  | [] => []
  | [p] => p
  | p :: q :: rest => p ++ '-' :: joinHyphen (q :: rest)

/-- Insert a hyphen every `k` characters, counting from the left. -/
def hyphenate (k : Nat) (l : List Char) : List Char :=
  if k = 0 then l else joinHyphen (chunksF l.length k l)

/-- Modelled from the spec: `base32.encode(number, split_every, min_length,
checksum)` of the external `base32_lib` package, as described in §4.1/§6 of
the spec and the `encode_id` docstring. -/
def b32_encode (n : Nat) (splitEvery minLength : Nat) (checksum : Bool) : String :=
  let digits := natToB32 n
  let body := if checksum then digits ++ checksumChars n else digits
  let padded := List.replicate (minLength - body.length) '0' ++ body
  ⟨hyphenate splitEvery padded⟩

/-- `encode_id(number)` with its default arguments
(`split_every=5, min_length=10, checksum=True`). -/
def encode_id (n : Nat) : String := b32_encode n 5 10 true

/-- ASCII lowercasing (Python `str.lower` on the ASCII fragment). -/
def asciiLower (c : Char) : Char :=
  if 'A' ≤ c ∧ c ≤ 'Z' then Char.ofNat (c.toNat + 32) else c

/-- The typo corrections of decode normalisation: `i,l → 1` and `o → 0`
(uppercase forms are handled by the preceding lowercasing). -/
def fixChar (c : Char) : Char :=
  if c = 'i' then '1' else if c = 'l' then '1' else if c = 'o' then '0' else c

/-- One character of canonicalising normalisation: drop hyphens, lowercase,
correct typos. -/
def canonChar (c : Char) : Option Char :=
  if c = '-' then none else some (fixChar (asciiLower c))

/-- Canonicalising normalisation of a string (lowercased, hyphens removed,
`I,i,l,L → 1`, `O,o → 0`). -/
def canonicalize (s : String) : List Char := s.data.filterMap canonChar

/-- `canonicalize`, repackaged as a string. -/
def canonicalizeStr (s : String) : String := ⟨canonicalize s⟩

/-- Modelled from the spec: `base32_lib`'s normalisation before decoding —
canonicalise, then reject an empty result or a character outside the
alphabet. -/
def b32_normalize (s : String) : Except PyError (List Char) :=
  let l := canonicalize s
  if l ≠ [] ∧ ∀ c ∈ l, c ∈ B32_CHARS then .ok l
  else .error (.valueErr "string is not valid base32")

/-- The value of one decimal digit character. -/
def decCharVal (c : Char) : Option Nat :=
  if '0' ≤ c ∧ c ≤ '9' then some (c.toNat - '0'.toNat) else none

/-- Python `int(s)` on a plain decimal string. -/
def parseDecimal (l : List Char) : Option Nat :=
  if l = [] then none
  else l.foldl (fun acc c => do
    let a ← acc
    let d ← decCharVal c
    pure (a * 10 + d)) (some 0)

/-- The decode steps after normalisation: split off the two checksum digits,
decode the base-32 value, and check `(value·100 + checksum) mod 97 = 1`. -/
def b32_decode_core (l : List Char) (checksum : Bool) : Except PyError Nat :=
  if checksum then
    match parseDecimal (l.drop (l.length - 2)) with
    | none => .error (.valueErr "invalid literal for int")
    | some m =>
      if (b32Val (l.take (l.length - 2)) * 100 + m) % 97 = 1 then
        .ok (b32Val (l.take (l.length - 2)))
      else .error (.valueErr "invalid checksum")
  else
    .ok (b32Val l)

/-- Modelled from the spec: `base32.decode(encoded, checksum)` — normalise,
then decode and verify the checksum. -/
def b32_decode (s : String) (checksum : Bool) : Except PyError Nat :=
  match b32_normalize s with
  | .error e => .error e
  | .ok l => b32_decode_core l checksum

/-- `decode_id(encoded)` with its default argument (`checksum=True`). -/
def decode_id (s : String) : Except PyError Nat := b32_decode s true

example : encode_id 0 = "00000-00098" := by decide
example : decode_id "00000-00098" = .ok 0 := by decide
example : decode_id (encode_id 1234567) = .ok 1234567 := by decide
example : decode_id "3sbk2-5j060" = decode_id "3SBK2-5J060" := by decide

/-! ### Lemmas about the codec -/

lemma char_le_iff (c d : Char) : c ≤ d ↔ c.toNat ≤ d.toNat := by
  simp [Char.le_def, UInt32.le_def, BitVec.le_def, Char.toNat, UInt32.toNat]

lemma char_toNat_ofNat (n : Nat) (h : n < 55296) : (Char.ofNat n).toNat = n := by
  unfold Char.ofNat
  rw [dif_pos (Or.inl h)]
  simp [Char.ofNatAux, Char.toNat, UInt32.toNat, BitVec.toNat_ofNatLt]

lemma asciiLower_toNat_of_upper {c : Char} (h : 'A' ≤ c ∧ c ≤ 'Z') :
    (asciiLower c).toNat = c.toNat + 32 := by
  unfold asciiLower
  rw [if_pos h]
  have h2 := (char_le_iff c 'Z').mp h.2
  have hz : ('Z').toNat = 90 := by decide
  exact char_toNat_ofNat _ (by omega)

lemma asciiLower_eq_self_of_not_upper {c : Char} (h : ¬('A' ≤ c ∧ c ≤ 'Z')) :
    asciiLower c = c := by
  unfold asciiLower
  exact if_neg h

lemma asciiLower_not_upper (c : Char) : ¬('A' ≤ asciiLower c ∧ asciiLower c ≤ 'Z') := by
  by_cases h : 'A' ≤ c ∧ c ≤ 'Z'
  · have ht := asciiLower_toNat_of_upper h
    intro hcon
    have h1 := (char_le_iff 'A' c).mp h.1
    have h2 := (char_le_iff c 'Z').mp h.2
    have hc2 := (char_le_iff (asciiLower c) 'Z').mp hcon.2
    have hc1 := (char_le_iff 'A' (asciiLower c)).mp hcon.1
    have hz : ('Z').toNat = 90 := by decide
    have ha : ('A').toNat = 65 := by decide
    omega
  · rw [asciiLower_eq_self_of_not_upper h]
    exact h

lemma asciiLower_idem (c : Char) : asciiLower (asciiLower c) = asciiLower c :=
  asciiLower_eq_self_of_not_upper (asciiLower_not_upper c)

lemma asciiLower_ne_hyphen {c : Char} (h : c ≠ '-') : asciiLower c ≠ '-' := by
  by_cases hu : 'A' ≤ c ∧ c ≤ 'Z'
  · have ht := asciiLower_toNat_of_upper hu
    intro he
    rw [he] at ht
    have h1 := (char_le_iff 'A' c).mp hu.1
    have ha : ('A').toNat = 65 := by decide
    have hh : ('-').toNat = 45 := by decide
    omega
  · rw [asciiLower_eq_self_of_not_upper hu]
    exact h

lemma fixChar_cases (c : Char) :
    fixChar c = '1' ∨ fixChar c = '0' ∨ (fixChar c = c ∧ c ≠ 'i' ∧ c ≠ 'l' ∧ c ≠ 'o') := by
  unfold fixChar
  split_ifs <;> simp_all

lemma fixChar_eq_self {c : Char} (h : c ≠ 'i' ∧ c ≠ 'l' ∧ c ≠ 'o') : fixChar c = c := by
  unfold fixChar
  rw [if_neg h.1, if_neg h.2.1, if_neg h.2.2]

lemma canonChar_idem {c c' : Char} (h : canonChar c = some c') : canonChar c' = some c' := by
  unfold canonChar at h
  by_cases hc : c = '-'
  · rw [if_pos hc] at h
    cases h
  rw [if_neg hc] at h
  have hc' : c' = fixChar (asciiLower c) := by
    cases h
    rfl
  rcases fixChar_cases (asciiLower c) with h1 | h1 | ⟨h1, hne⟩
  · rw [hc', h1]
    decide
  · rw [hc', h1]
    decide
  · have he : c' = asciiLower c := by rw [hc', h1]
    unfold canonChar
    rw [if_neg (he ▸ asciiLower_ne_hyphen hc)]
    rw [he, asciiLower_idem, fixChar_eq_self hne, ← he]

lemma filterMap_canonChar_idem (l : List Char) :
    (l.filterMap canonChar).filterMap canonChar = l.filterMap canonChar := by
  induction l with
  | nil => rfl
  | cons c rest ih =>
    cases h : canonChar c with
    | none => simp [List.filterMap_cons, h, ih]
    | some c' => simp [List.filterMap_cons, h, canonChar_idem h, ih]

lemma b32CharVal_b32Digit {d : Nat} (h : d < 32) : b32CharVal (b32Digit d) = d :=
  (by decide : ∀ d : Fin 32, b32CharVal (b32Digit d.val) = d.val) ⟨d, h⟩

lemma b32Digit_mem {d : Nat} (h : d < 32) : b32Digit d ∈ B32_CHARS :=
  (by decide : ∀ d : Fin 32, b32Digit d.val ∈ B32_CHARS) ⟨d, h⟩

lemma b32Val_append_digit (l : List Char) (c : Char) :
    b32Val (l ++ [c]) = b32Val l * 32 + b32CharVal c := by
  simp [b32Val, List.foldl_append]

lemma b32Val_digitsRevF : ∀ fuel n, n ≤ fuel → b32Val ((b32DigitsRevF fuel n).reverse) = n := by
  intro fuel
  induction fuel with
  | zero =>
    intro n hn
    interval_cases n
    rfl
  | succ fuel ih =>
    intro n hn
    match n with
    | 0 => rfl
    | Nat.succ m =>
      have hstep : b32DigitsRevF (fuel + 1) (m + 1)
          = b32Digit ((m + 1) % 32) :: b32DigitsRevF fuel ((m + 1) / 32) := rfl
      rw [hstep, List.reverse_cons, b32Val_append_digit,
        ih ((m + 1) / 32) (by omega), b32CharVal_b32Digit (Nat.mod_lt _ (by norm_num))]
      omega

lemma b32Val_natToB32 (n : Nat) : b32Val (natToB32 n) = n := by
  unfold natToB32
  by_cases h : n = 0
  · rw [if_pos h, h]
    decide
  · rw [if_neg h]
    exact b32Val_digitsRevF n n (Nat.le_refl n)

lemma b32Val_replicate_zero (k : Nat) (l : List Char) :
    b32Val (List.replicate k '0' ++ l) = b32Val l := by
  induction k with
  | zero => rfl
  | succ k ih =>
    have : List.replicate (k + 1) '0' ++ l = '0' :: (List.replicate k '0' ++ l) := rfl
    rw [this]
    show (List.replicate k '0' ++ l).foldl (fun a c => a * 32 + b32CharVal c)
      (0 * 32 + b32CharVal '0') = b32Val l
    have h0 : 0 * 32 + b32CharVal '0' = 0 := by decide
    rw [h0]
    exact ih

lemma b32DigitsRevF_mem : ∀ fuel n c, c ∈ b32DigitsRevF fuel n → c ∈ B32_CHARS := by
  intro fuel
  induction fuel with
  | zero =>
    intro n c hc
    match n with
    | 0 => cases hc
    | Nat.succ _ => cases hc
  | succ fuel ih =>
    intro n c hc
    match n with
    | 0 => cases hc
    | Nat.succ m =>
      have hstep : b32DigitsRevF (fuel + 1) (m + 1)
          = b32Digit ((m + 1) % 32) :: b32DigitsRevF fuel ((m + 1) / 32) := rfl
      rw [hstep] at hc
      rcases List.mem_cons.mp hc with h | h
      · rw [h]
        exact b32Digit_mem (Nat.mod_lt _ (by norm_num))
      · exact ih _ _ h

lemma natToB32_mem {n : Nat} {c : Char} (hc : c ∈ natToB32 n) : c ∈ B32_CHARS := by
  unfold natToB32 at hc
  by_cases h : n = 0
  · rw [if_pos h] at hc
    simp at hc
    rw [hc]
    decide
  · rw [if_neg h] at hc
    exact b32DigitsRevF_mem n n c (List.mem_reverse.mp hc)

lemma decDigit_mem {d : Nat} (h : d < 10) : decDigit d ∈ B32_CHARS :=
  (by decide : ∀ d : Fin 10, decDigit d.val ∈ B32_CHARS) ⟨d, h⟩

lemma decCharVal_decDigit {d : Nat} (h : d < 10) : decCharVal (decDigit d) = some d :=
  (by decide : ∀ d : Fin 10, decCharVal (decDigit d.val) = some d.val) ⟨d, h⟩

lemma checksumOf_le (n : Nat) : checksumOf n ≤ 98 := by
  unfold checksumOf
  omega

lemma parseDecimal_checksumChars (n : Nat) :
    parseDecimal (checksumChars n) = some (checksumOf n) := by
  have hle := checksumOf_le n
  unfold parseDecimal checksumChars
  rw [if_neg (by simp)]
  simp [List.foldl, decCharVal_decDigit (show checksumOf n / 10 < 10 by omega),
    decCharVal_decDigit (show checksumOf n % 10 < 10 by omega)]
  omega

lemma canonChar_of_b32_mem : ∀ c ∈ B32_CHARS, canonChar c = some c := by decide

lemma filterMap_canonChar_of_fixed {l : List Char} (h : ∀ c ∈ l, canonChar c = some c) :
    l.filterMap canonChar = l := by
  induction l with
  | nil => rfl
  | cons c rest ih =>
    rw [List.filterMap_cons, h c (List.mem_cons_self c rest),
      ih (fun x hx => h x (List.mem_cons_of_mem c hx))]

lemma filterMap_canonChar_joinHyphen : ∀ ps : List (List Char),
    (joinHyphen ps).filterMap canonChar = ps.flatten.filterMap canonChar := by
  intro ps
  match ps with
  | [] => rfl
  | [p] => simp [joinHyphen]
  | p :: q :: rest =>
    have : joinHyphen (p :: q :: rest) = p ++ '-' :: joinHyphen (q :: rest) := rfl
    rw [this]
    rw [List.filterMap_append, List.filterMap_cons]
    have hh : canonChar '-' = none := rfl
    rw [hh, filterMap_canonChar_joinHyphen (q :: rest)]
    simp [List.filterMap_append]

lemma join_chunksF : ∀ fuel k l, 1 ≤ k → List.length l ≤ fuel →
    (chunksF fuel k l).flatten = l := by
  intro fuel
  induction fuel with
  | zero =>
    intro k l hk hl
    match l with
    | [] => rfl
    | c :: rest => simp at hl
  | succ fuel ih =>
    intro k l hk hl
    match l with
    | [] => rfl
    | c :: rest =>
      have hstep : chunksF (fuel + 1) k (c :: rest)
          = (c :: rest).take k :: chunksF fuel k ((c :: rest).drop k) := rfl
      rw [hstep, List.flatten_cons]
      rw [ih k _ hk (by rw [List.length_drop]; omega)]
      exact List.take_append_drop k (c :: rest)

lemma b32_encode_padded_mem (n : Nat) :
    ∀ c ∈ List.replicate (10 - (natToB32 n ++ checksumChars n).length) '0'
      ++ (natToB32 n ++ checksumChars n), c ∈ B32_CHARS := by
  intro c hc
  rcases List.mem_append.mp hc with h | h
  · rw [List.eq_of_mem_replicate h]
    decide
  · rcases List.mem_append.mp h with h2 | h2
    · exact natToB32_mem h2
    · have hle := checksumOf_le n
      unfold checksumChars at h2
      rcases List.mem_cons.mp h2 with h3 | h3
      · rw [h3]
        exact decDigit_mem (by omega)
      · rcases List.mem_cons.mp h3 with h4 | h4
        · rw [h4]
          exact decDigit_mem (by omega)
        · cases h4

lemma canonicalize_b32_encode (n : Nat) :
    canonicalize (b32_encode n 5 10 true)
      = List.replicate (10 - (natToB32 n ++ checksumChars n).length) '0'
        ++ (natToB32 n ++ checksumChars n) := by
  have hb : b32_encode n 5 10 true
      = ⟨joinHyphen (chunksF (List.replicate (10 - (natToB32 n ++ checksumChars n).length) '0'
          ++ (natToB32 n ++ checksumChars n)).length 5
          (List.replicate (10 - (natToB32 n ++ checksumChars n).length) '0'
          ++ (natToB32 n ++ checksumChars n)))⟩ := rfl
  rw [hb]
  show (joinHyphen (chunksF (List.replicate (10 - (natToB32 n ++ checksumChars n).length) '0'
      ++ (natToB32 n ++ checksumChars n)).length 5
      (List.replicate (10 - (natToB32 n ++ checksumChars n).length) '0'
      ++ (natToB32 n ++ checksumChars n)))).filterMap canonChar = _
  rw [filterMap_canonChar_joinHyphen, join_chunksF _ 5 _ (by norm_num) (Nat.le_refl _)]
  exact filterMap_canonChar_of_fixed
    (fun c hc => canonChar_of_b32_mem c (b32_encode_padded_mem n c hc))

lemma b32_normalize_encode (n : Nat) :
    b32_normalize (b32_encode n 5 10 true)
      = .ok (List.replicate (10 - (natToB32 n ++ checksumChars n).length) '0'
        ++ (natToB32 n ++ checksumChars n)) := by
  unfold b32_normalize
  rw [canonicalize_b32_encode]
  rw [if_pos]
  constructor
  · intro hnil
    have h2 : checksumChars n = [] := by
      rcases List.append_eq_nil.mp hnil with ⟨-, hb⟩
      exact (List.append_eq_nil.mp hb).2
    simp [checksumChars] at h2
  · exact b32_encode_padded_mem n

lemma decode_encode_id (n : Nat) : decode_id (encode_id n) = .ok n := by
  unfold decode_id encode_id b32_decode
  rw [b32_normalize_encode]
  show b32_decode_core _ true = .ok n
  have hassoc : List.replicate (10 - (natToB32 n ++ checksumChars n).length) '0'
      ++ (natToB32 n ++ checksumChars n)
      = (List.replicate (10 - (natToB32 n ++ checksumChars n).length) '0'
        ++ natToB32 n) ++ checksumChars n := by
    rw [List.append_assoc]
  rw [hassoc]
  set L1 := List.replicate (10 - (natToB32 n ++ checksumChars n).length) '0'
    ++ natToB32 n with hL1
  have hcslen : (checksumChars n).length = 2 := by simp [checksumChars]
  have hlen : (L1 ++ checksumChars n).length - 2 = L1.length := by
    rw [List.length_append, hcslen]
    omega
  unfold b32_decode_core
  rw [if_pos rfl, hlen, List.drop_left, List.take_left, parseDecimal_checksumChars,
    hL1, b32Val_replicate_zero, b32Val_natToB32]
  show (if (n * 100 + checksumOf n) % 97 = 1 then (Except.ok n : Except PyError Nat)
    else .error (.valueErr "invalid checksum")) = .ok n
  rw [if_pos (by unfold checksumOf; omega)]

lemma b32_normalize_canonicalizeStr (s : String) :
    b32_normalize (canonicalizeStr s) = b32_normalize s := by
  unfold b32_normalize canonicalizeStr canonicalize
  rw [show (String.mk (s.data.filterMap canonChar)).data = s.data.filterMap canonChar from rfl]
  rw [filterMap_canonChar_idem]

/-- C6: for every `n < 2^64`, `decode_id (encode_id n) = n`, and `decode_id`
returns the same result on a string and on its canonicalised normalisation
(lowercased, hyphens removed, I/i/l/L mapped to 1, O/o mapped to 0). -/
theorem encode_decode_round_trip :
    (∀ n : Nat, n < 2 ^ 64 → decode_id (encode_id n) = .ok n) ∧
    (∀ s : String, decode_id s = decode_id (canonicalizeStr s)) := by
  constructor
  · intro n _
    exact decode_encode_id n
  · intro s
    unfold decode_id b32_decode
    rw [b32_normalize_canonicalizeStr]

/-! ### URI syntax (`URI_BEGINNING_PATTERN` and `check_uris`) -/

/-- A Python `\w` word character. Python's `\w` on `str` patterns is
Unicode-aware, not the ASCII class `[a-zA-Z0-9_]`; it is embedded faithfully
on the Latin-1 range: ASCII letters, digits and `_`, plus the Latin-1
alphanumerics `ª ² ³ µ ¹ º ¼ ½ ¾` (code points 170, 178, 179, 181, 185,
186, 188, 189, 190) and the Latin-1 letters `À`–`ÿ` (192–255) except `×`
(215) and `÷` (247). -/
def pyWordChar (c : Char) : Bool :=
  c.isAlphanum || c = '_'
    || [170, 178, 179, 181, 185, 186, 188, 189, 190].contains c.toNat
    || ((192 ≤ c.toNat : Bool) && (c.toNat ≤ 255 : Bool)
        && !(c.toNat = 215 : Bool) && !(c.toNat = 247 : Bool))

/-- The tail `\w*?://.` of `URI_BEGINNING_PATTERN`, matched at the current
position: either `"://"` plus one non-newline character matches here, or one
word character is consumed and matching continues. A lazy `\w*?` and a
greedy `\w*` accept the same strings, and `re.match` anchors only the start
of the string, so this captures the pattern's prefix-matching language. -/
def uriTailMatch : List Char → Bool
  | c1 :: c2 :: c3 :: c4 :: rest =>
    ((c1 = ':' : Bool) && (c2 = '/' : Bool) && (c3 = '/' : Bool) && !(c4 = '\n' : Bool))
      || (pyWordChar c1 && uriTailMatch (c2 :: c3 :: c4 :: rest))
  | _ => false

/-- `re.match(URI_BEGINNING_PATTERN, s)` succeeds, where
`URI_BEGINNING_PATTERN = re.compile(r"[a-z]\w*?://.")`. -/
def uriMatch (s : String) : Bool :=
  match s.data with
  | [] => false
  | c :: rest => (('a' ≤ c : Bool) && (c ≤ 'z' : Bool)) && uriTailMatch rest

/-- Modelled from the spec's words (for comparison with `uriMatch`): one
character of the class `[a-zA-Z0-9_]`. -/
def specWordChar (c : Char) : Bool :=
  (('a' ≤ c : Bool) && (c ≤ 'z' : Bool)) || (('A' ≤ c : Bool) && (c ≤ 'Z' : Bool))
    || (('0' ≤ c : Bool) && (c ≤ '9' : Bool)) || (c = '_' : Bool)

/-- Modelled from the spec's words: the tail `[a-zA-Z0-9_]*://.+` of the
spec's URI pattern, as a prefix match. -/
def specUriTail : List Char → Bool
  | c1 :: c2 :: c3 :: c4 :: rest =>
    ((c1 = ':' : Bool) && (c2 = '/' : Bool) && (c3 = '/' : Bool) && !(c4 = '\n' : Bool))
      || (specWordChar c1 && specUriTail (c2 :: c3 :: c4 :: rest))
  | _ => false

/-- Modelled from the spec's words (for comparison with `uriMatch`): a
prefix of the string matches `^[a-z][a-zA-Z0-9_]*://.+`. -/
def spec_uri_match (s : String) : Bool :=
  match s.data with
  | [] => false
  | c :: rest => (('a' ≤ c : Bool) && (c ≤ 'z' : Bool)) && specUriTail rest

/-- `check_uris(resources)`: `ValueError` (`InvalidResource`) unless every
resource matches the URI beginning pattern. -/
def check_uris (resources : List String) : Except PyError (List String) :=
  if resources.all uriMatch then .ok resources
  else .error (.valueErr "Some resources are not URIs")

example : uriMatch "http://example.org/x" = true := by decide
example : uriMatch "myns:key01" = false := by decide
example : uriMatch "s://" = false := by decide
example : uriMatch "s://hx and then anything" = true := by decide

lemma pyWordChar_ascii (c : Char) (hc : c.toNat < 128) :
    pyWordChar c = (c.isAlphanum || c = '_') := by
  unfold pyWordChar
  have h1 : [170, 178, 179, 181, 185, 186, 188, 189, 190].contains c.toNat = false := by
    rw [Bool.eq_false_iff]
    intro hmem
    have hmem2 : c.toNat ∈ [170, 178, 179, 181, 185, 186, 188, 189, 190] :=
      List.elem_iff.mp hmem
    simp at hmem2
    omega
  have h2 : ((192 ≤ c.toNat : Bool) && (c.toNat ≤ 255 : Bool)
      && !(c.toNat = 215 : Bool) && !(c.toNat = 247 : Bool)) = false := by
    rw [Bool.eq_false_iff]
    intro hr
    simp only [Bool.and_eq_true, decide_eq_true_eq] at hr
    omega
  rw [h1, h2]
  simp

lemma pyWordChar_eq_specWordChar (c : Char) (hc : c.toNat < 128) :
    pyWordChar c = specWordChar c := by
  rw [pyWordChar_ascii c hc, Bool.eq_iff_iff]
  unfold specWordChar Char.isAlphanum Char.isAlpha Char.isUpper Char.isLower
    Char.isDigit
  simp only [Bool.or_eq_true, Bool.and_eq_true, decide_eq_true_eq, Char.le_def,
    UInt32.le_def, BitVec.le_def, ge_iff_le]
  have e1 : ('a').val.toBitVec.toNat = 97 := by decide
  have e2 : ('z').val.toBitVec.toNat = 122 := by decide
  have e3 : ('A').val.toBitVec.toNat = 65 := by decide
  have e4 : ('Z').val.toBitVec.toNat = 90 := by decide
  have e5 : ('0').val.toBitVec.toNat = 48 := by decide
  have e6 : ('9').val.toBitVec.toNat = 57 := by decide
  have f1 : (UInt32.toBitVec 65).toNat = 65 := by decide
  have f2 : (UInt32.toBitVec 90).toNat = 90 := by decide
  have f3 : (UInt32.toBitVec 97).toNat = 97 := by decide
  have f4 : (UInt32.toBitVec 122).toNat = 122 := by decide
  have f5 : (UInt32.toBitVec 48).toNat = 48 := by decide
  have f6 : (UInt32.toBitVec 57).toNat = 57 := by decide
  rw [e1, e2, e3, e4, e5, e6, f1, f2, f3, f4, f5, f6]
  by_cases hu : c = '_'
  · simp [hu]
  · simp [hu]
    omega

lemma uriTailMatch_eq_spec :
    ∀ l, (∀ c ∈ l, c.toNat < 128) → uriTailMatch l = specUriTail l := by
  intro l
  induction l with
  | nil =>
    intro _
    rfl
  | cons c1 rest ih =>
    intro hascii
    rcases rest with _ | ⟨c2, _ | ⟨c3, _ | ⟨c4, r⟩⟩⟩
    · rfl
    · rfl
    · rfl
    · show (_ || (pyWordChar c1 && uriTailMatch (c2 :: c3 :: c4 :: r)))
        = (_ || (specWordChar c1 && specUriTail (c2 :: c3 :: c4 :: r)))
      rw [ih fun c hc => hascii c (List.mem_cons_of_mem _ hc),
        pyWordChar_eq_specWordChar c1 (hascii c1 (List.mem_cons_self _ _))]

/-- C7 (counterexample): `check_uris` accepts the string `s`-`é`-`://x` —
Python's `\w` is Unicode-aware, so `é` is a word character — although that
string lies outside the spec language `^[a-z][a-zA-Z0-9_]*://.+`, refuting
the claim that no element outside that language is accepted. -/
theorem check_uris_unicode_cex :
    check_uris ["sé://x"] = .ok ["sé://x"] ∧ spec_uri_match "sé://x" = false := by
  decide

/-- C7 (amended): `check_uris` (and hence `_oids_for`) succeeds iff every
element matches `re.match(r"[a-z]\w*?://.")` with Python's Unicode-aware
`\w`, raising `InvalidResource` (a `ValueError`) otherwise; restricted to
ASCII strings that accepted language is exactly the spec's
`^[a-z][a-zA-Z0-9_]*://.+` (prefix match, `re.match` semantics), but the
code also accepts strings outside it, whose non-ASCII characters `\w`
matches. -/
theorem check_uris_pattern_language :
    (∀ rs : List String,
      (check_uris rs = .ok rs ↔ ∀ r ∈ rs, uriMatch r = true) ∧
      ((∃ r ∈ rs, uriMatch r = false) ↔
        check_uris rs = .error (.valueErr "Some resources are not URIs"))) ∧
    (∀ s : String, (∀ c ∈ s.data, c.toNat < 128) →
      uriMatch s = spec_uri_match s) := by
  refine ⟨fun rs => ⟨?_, ?_⟩, fun s hascii => ?_⟩
  · unfold check_uris
    by_cases h : rs.all uriMatch
    · rw [if_pos h]
      simp only [List.all_eq_true] at h
      exact ⟨fun _ => h, fun _ => rfl⟩
    · rw [if_neg h]
      simp only [List.all_eq_true] at h
      constructor
      · intro hcon
        cases hcon
      · intro hall
        exact absurd hall h
  · unfold check_uris
    by_cases h : rs.all uriMatch
    · rw [if_pos h]
      simp only [List.all_eq_true] at h
      constructor
      · rintro ⟨r, hr, hf⟩
        rw [h r hr] at hf
        cases hf
      · intro hcon
        cases hcon
    · rw [if_neg h]
      simp only [List.all_eq_true] at h
      push_neg at h
      obtain ⟨r, hr, hf⟩ := h
      exact ⟨fun _ => rfl, fun _ => ⟨r, hr, by simp at hf ⊢; exact hf⟩⟩
  · unfold uriMatch spec_uri_match
    cases hdata : s.data with
    | nil => rfl
    | cons c rest =>
      rw [hdata] at hascii
      show ((('a' ≤ c : Bool) && (c ≤ 'z' : Bool)) && uriTailMatch rest)
        = ((('a' ≤ c : Bool) && (c ≤ 'z' : Bool)) && specUriTail rest)
      rw [uriTailMatch_eq_spec rest fun x hx => hascii x (List.mem_cons_of_mem _ hx)]

/-! ### Prefix expansion and the reserved attributes -/

/-- The base prefix map (`PREFIXES`), in declaration order. -/
def PREFIXES : List (String × String) :=
  [("qudt", "http://qudt.org/schema/qudt#"),
   ("rdf", "http://www.w3.org/1999/02/22-rdf-syntax-ns#"),
   ("vaem", "http://www.linkedmodel.org/schema/vaem#"),
   ("prov", "http://www.w3.org/ns/prov#"),
   ("rdfs", "http://www.w3.org/2000/01/rdf-schema#"),
   ("xsd", "http://www.w3.org/2001/XMLSchema#")]

/-- `s.split(":", 1)`: the text before and after the first colon, when one
occurs. -/
def splitColon : List Char → Option (List Char × List Char)
  | [] => none
  | c :: rest =>
    if c = ':' then some ([], rest)
    else (splitColon rest).map fun p => (c :: p.1, p.2)

/-- One item of `prefix_expand`: a string `pfx:local` whose local part does
not start with `/` is expanded through the prefix map (an unrecognised
prefix passes through as `pfx:` verbatim); any other item is unchanged. -/
def prefix_expand_item (pfxs : List (String × String)) (x : PyVal) : PyVal :=
  match x with
  | .str s =>
    match splitColon s.data with
    | some (p, rest) =>
      if rest.head? = some '/' then .str s
      else .str ((alookup pfxs (String.mk p)).getD (String.mk p ++ ":") ++ String.mk rest)
    | none => .str s
  | v => v

/-- `prefix_expand(items, use_prefixes)` over `PREFIXES ⊕ use_prefixes`. -/
def prefix_expand (items : List PyVal) (usePrefixes : List (String × String)) :
    List PyVal :=
  items.map (prefix_expand_item (pyUpdate PREFIXES usePrefixes))

/-- `CORE_ATTRIBUTES["qudt:value"]`. -/
def QUDT_VALUE_URI : String := "http://qudt.org/schema/qudt#value"

/-- `CORE_ATTRIBUTES["vaem:id"]`. -/
def VAEM_ID_URI : String := "http://www.linkedmodel.org/schema/vaem#id"

/-- `CORE_ATTRIBUTES["rdf:resource"]`. -/
def RDF_RESOURCE_URI : String := "http://www.w3.org/1999/02/22-rdf-syntax-ns#resource"

/-- `LITERAL_VALUED_ATTRIBUTES`: the expanded URIs of `vaem:id` and
`qudt:value`. -/
def LITERAL_VALUED_ATTRIBUTES : List String := [VAEM_ID_URI, QUDT_VALUE_URI]

example : prefix_expand [.str "vaem:id", .str "qudt:value", .str "rdf:resource"] []
    = [.str VAEM_ID_URI, .str QUDT_VALUE_URI, .str RDF_RESOURCE_URI] := by decide

/-! ### The transaction engine (`_transact_raw`, `transact`) -/

/-- A compiled raw statement `(e, a, v)`. -/
abbrev RawStatement := PyVal × PyVal × PyVal

/-- A compiled raw statement operation `(e, a, v, op)`. -/
abbrev RawStatementOperation := PyVal × PyVal × PyVal × Bool

/-- The mutable state the compiler and transaction engine act on: the datom
store (the collection's documents in insertion order), the process-wide
`_oids_cache`, and explicit supplies of fresh `ObjectId()` values and
`generate_id()` candidates (modelling their nondeterminism). -/
structure DBState : Type where
  store : List Datom
  cache : List (String × PyVal)
  oidSupply : List (Nat × Nat)
  eidSupply : List String
deriving DecidableEq, Repr

/-- Is a value an ObjectId? -/
def isOid : PyVal → Bool
  | .oid _ _ => true
  | _ => false

/-- The collection validator on one document: `e`, `a` and `t` must be
ObjectIds (`o` is a boolean and the field set is fixed by the `Datom`
structure; `v` is unconstrained). -/
def validDatom (d : Datom) : Bool := isOid d.e && isOid d.a && isOid d.t

/-- `coll.count_documents({A: OID_VAEM_ID, V: eid_decoded})`. -/
def countVaem (store : List Datom) (n : Nat) : Nat :=
  (store.filter fun d => (d.a = OID_VAEM_ID : Bool) && (d.v = PyVal.int n : Bool)).length

/-- `generate_id_unique`: draw candidate shareable IDs until one decodes to a
value that is not already the value of a stored `OID_VAEM_ID` datom. The
candidate stream is the explicit supply; `none` models an exhausted supply or
a failing `decode_id` (neither happens on real `generate_id` output). -/
def generate_id_unique : List String → List Datom → Option (String × List String)
  | [], _ => none
  | eid :: rest, store =>
    match decode_id eid with
    | .error _ => none
    | .ok n =>
      if 0 < countVaem store n then generate_id_unique rest store
      else some (eid, rest)

/-- `_transact_raw(raw_statement_operations)`: allocate `t = ObjectId()`,
generate a unique shareable ID, decode it, build one document per operation
plus the two reifying documents (all stamped with `t`), and insert them.
A real run cannot exhaust the supplies; a validation failure is modelled as
an atomic error (only the success path is the subject of theorems). -/
def _transact_raw (ops : List RawStatementOperation) (st : DBState) :
    Except PyError (DBState × List Datom) :=
  match st.oidSupply with
  | [] => .error (.runtimeErr "oid supply exhausted")
  | (sec, inc) :: oidRest =>
    let t : PyVal := .oid sec inc
    match generate_id_unique st.eidSupply st.store with
    | none => .error (.runtimeErr "eid supply exhausted")
    | some (eid, eidRest) =>
      match decode_id eid with
      | .error e => .error e
      | .ok n =>
        let docs := ops.map (fun q => (⟨q.1, q.2.1, q.2.2.1, t, q.2.2.2⟩ : Datom))
          ++ [⟨t, OID_GENERATED_AT_TIME, .dt sec, t, true⟩,
              ⟨t, OID_VAEM_ID, .int n, t, true⟩]
        if docs.all validDatom then
          .ok (DBState.mk (st.store ++ docs) st.cache oidRest eidRest, docs)
        else .error (.writeErr "document failed validation")

/-- `_assert_raw(raw_statements)`: transact them all as assertions. -/
def _assert_raw (stmts : List RawStatement) (st : DBState) :
    Except PyError (DBState × List Datom) :=
  _transact_raw (stmts.map fun q => (q.1, q.2.1, q.2.2, true)) st

/-- `transact(rso_sequence)`: flatten one level and transact. -/
def transact (rsoSeq : List (List RawStatementOperation)) (st : DBState) :
    Except PyError (DBState × List Datom) :=
  _transact_raw rsoSeq.flatten st

lemma generate_id_unique_spec :
    ∀ cands store eid rest, generate_id_unique cands store = some (eid, rest) →
    ∃ n used, decode_id eid = .ok n ∧ countVaem store n = 0 ∧
      cands = used ++ eid :: rest ∧
      ∀ c ∈ used, ∃ m, decode_id c = .ok m ∧ 0 < countVaem store m := by
  intro cands
  induction cands with
  | nil =>
    intro store eid rest h
    cases h
  | cons c cs ih =>
    intro store eid rest h
    unfold generate_id_unique at h
    cases hd : decode_id c with
    | error e =>
      simp only [hd] at h
      cases h
    | ok n =>
      simp only [hd] at h
      by_cases hc : 0 < countVaem store n
      · rw [if_pos hc] at h
        obtain ⟨n', used', h1, h2, h3, h4⟩ := ih store eid rest h
        refine ⟨n', c :: used', h1, h2, by rw [h3]; rfl, ?_⟩
        intro x hx
        rcases List.mem_cons.mp hx with hx | hx
        · exact ⟨n, by rw [hx]; exact hd, hc⟩
        · exact h4 x hx
      · rw [if_neg hc] at h
        injection h with h
        injection h with h1 h2
        subst h1
        subst h2
        exact ⟨n, [], hd, by omega, rfl, by intro x hx; cases hx⟩

/-- C2: a successful `transact` inserts exactly the given operations plus the
two reifying datoms `(t, OID_GENERATED_AT_TIME, instant(t), t, true)` and
`(t, OID_VAEM_ID, decoded, t, true)`; every inserted document carries the one
freshly allocated transaction Ident `t`; and the shareable ID is generated by
skipping exactly the candidates whose decoded value already appears as the
value of a stored `OID_VAEM_ID` datom, so the chosen decoded value is fresh. -/
theorem transact_reifies (rsoSeq : List (List RawStatementOperation)) (st st' : DBState)
    (docs : List Datom) (h : transact rsoSeq st = .ok (st', docs)) :
    ∃ sec inc n,
      st'.store = st.store ++ docs ∧
      docs = rsoSeq.flatten.map
          (fun q => (⟨q.1, q.2.1, q.2.2.1, .oid sec inc, q.2.2.2⟩ : Datom))
        ++ [⟨.oid sec inc, OID_GENERATED_AT_TIME, .dt sec, .oid sec inc, true⟩,
            ⟨.oid sec inc, OID_VAEM_ID, .int n, .oid sec inc, true⟩] ∧
      (∀ d ∈ docs, d.t = .oid sec inc) ∧
      countVaem st.store n = 0 ∧
      (∃ eid used rest, decode_id eid = .ok n ∧ st.eidSupply = used ++ eid :: rest ∧
        ∀ c ∈ used, ∃ m, decode_id c = .ok m ∧ 0 < countVaem st.store m) := by
  unfold transact _transact_raw at h
  cases hsup : st.oidSupply with
  | nil =>
    rw [hsup] at h
    cases h
  | cons p oidRest =>
    obtain ⟨sec, inc⟩ := p
    rw [hsup] at h
    cases hgen : generate_id_unique st.eidSupply st.store with
    | none =>
      simp only [hgen] at h
      cases h
    | some q =>
      obtain ⟨eid, eidRest⟩ := q
      simp only [hgen] at h
      obtain ⟨n, used, hdec, hcount, hsplit, hused⟩ :=
        generate_id_unique_spec st.eidSupply st.store eid eidRest hgen
      simp only [hdec] at h
      by_cases hval : (rsoSeq.flatten.map
          (fun (q : RawStatementOperation) =>
            (⟨q.1, q.2.1, q.2.2.1, .oid sec inc, q.2.2.2⟩ : Datom))
        ++ [(⟨.oid sec inc, OID_GENERATED_AT_TIME, .dt sec, .oid sec inc, true⟩ : Datom),
            ⟨.oid sec inc, OID_VAEM_ID, .int n, .oid sec inc, true⟩]).all validDatom
      · rw [if_pos hval] at h
        injection h with h
        injection h with h1 h2
        refine ⟨sec, inc, n, ?_, ?_, ?_, hcount, eid, used, eidRest, hdec, hsplit, hused⟩
        · rw [← h1, ← h2]
        · exact h2.symm
        · intro d hd
          rw [← h2] at hd
          rcases List.mem_append.mp hd with hm | hm
          · obtain ⟨q, -, hq⟩ := List.mem_map.mp hm
            rw [← hq]
          · rcases List.mem_cons.mp hm with hm2 | hm2
            · rw [hm2]
            · rcases List.mem_cons.mp hm2 with hm3 | hm3
              · rw [hm3]
              · cases hm3
      · rw [if_neg hval] at h
        cases h

/-- Witness for C2 at a concrete input: one user operation, a fresh ObjectId
supply `(5, 0)` and the candidate ID `encode_id 3` against an empty store. -/
theorem transact_reifies_witness :
    ∃ sec inc n,
      (DBState.mk
        [⟨.oid 7 0, .oid 8 0, .str "x", .oid 5 0, true⟩,
         ⟨.oid 5 0, OID_GENERATED_AT_TIME, .dt 5, .oid 5 0, true⟩,
         ⟨.oid 5 0, OID_VAEM_ID, .int 3, .oid 5 0, true⟩] [] [] []).store
        = (DBState.mk [] [] [(5, 0)] [encode_id 3]).store
          ++ [⟨.oid 7 0, .oid 8 0, .str "x", .oid 5 0, true⟩,
              ⟨.oid 5 0, OID_GENERATED_AT_TIME, .dt 5, .oid 5 0, true⟩,
              ⟨.oid 5 0, OID_VAEM_ID, .int 3, .oid 5 0, true⟩] ∧
      [(⟨.oid 7 0, .oid 8 0, .str "x", .oid 5 0, true⟩ : Datom),
       ⟨.oid 5 0, OID_GENERATED_AT_TIME, .dt 5, .oid 5 0, true⟩,
       ⟨.oid 5 0, OID_VAEM_ID, .int 3, .oid 5 0, true⟩]
        = [[((.oid 7 0 : PyVal), (.oid 8 0 : PyVal), (.str "x" : PyVal), true)]].flatten.map
            (fun q => (⟨q.1, q.2.1, q.2.2.1, .oid sec inc, q.2.2.2⟩ : Datom))
          ++ [⟨.oid sec inc, OID_GENERATED_AT_TIME, .dt sec, .oid sec inc, true⟩,
              ⟨.oid sec inc, OID_VAEM_ID, .int n, .oid sec inc, true⟩] ∧
      (∀ d ∈ [(⟨.oid 7 0, .oid 8 0, .str "x", .oid 5 0, true⟩ : Datom),
              ⟨.oid 5 0, OID_GENERATED_AT_TIME, .dt 5, .oid 5 0, true⟩,
              ⟨.oid 5 0, OID_VAEM_ID, .int 3, .oid 5 0, true⟩], d.t = .oid sec inc) ∧
      countVaem (DBState.mk [] [] [(5, 0)] [encode_id 3]).store n = 0 ∧
      (∃ eid used rest, decode_id eid = .ok n ∧
        (DBState.mk [] [] [(5, 0)] [encode_id 3]).eidSupply = used ++ eid :: rest ∧
        ∀ c ∈ used, ∃ m, decode_id c = .ok m ∧ 0 < countVaem
          (DBState.mk [] [] [(5, 0)] [encode_id 3]).store m) :=
  transact_reifies [[((.oid 7 0 : PyVal), (.oid 8 0 : PyVal), (.str "x" : PyVal), true)]]
    (DBState.mk [] [] [(5, 0)] [encode_id 3])
    (DBState.mk
      [⟨.oid 7 0, .oid 8 0, .str "x", .oid 5 0, true⟩,
       ⟨.oid 5 0, OID_GENERATED_AT_TIME, .dt 5, .oid 5 0, true⟩,
       ⟨.oid 5 0, OID_VAEM_ID, .int 3, .oid 5 0, true⟩] [] [] [])
    [⟨.oid 7 0, .oid 8 0, .str "x", .oid 5 0, true⟩,
     ⟨.oid 5 0, OID_GENERATED_AT_TIME, .dt 5, .oid 5 0, true⟩,
     ⟨.oid 5 0, OID_VAEM_ID, .int 3, .oid 5 0, true⟩]
    (by decide)

/-! ### The statement compiler (`_oids_for`, `_compile_to_raw`,
`_ensure_structured_literal`, `assert_or_retract`) -/

/-- First-occurrence deduplication: a deterministic rendering of the Python
`set` iterations inside `_oids_for` and `_compile_to_raw` (the result maps
and the set of written datoms do not depend on the order Python happens to
iterate a set in). -/
def dedupF {α : Type} [DecidableEq α] (l : List α) : List α :=
  l.foldl (fun acc a => if a ∈ acc then acc else acc ++ [a]) []

/-- Shared tail of `_oids_for`: update the cache with every found pair and
build the result dict (later entries win, as when Python builds a dict). -/
def oidsFinish (found : List (String × PyVal)) (st : DBState) :
    Except PyError (List (String × PyVal) × DBState) :=
  .ok (found.foldl (fun m p => pyInsert m p.1 p.2) [],
       DBState.mk st.store (found.foldl (fun m p => pyInsert m p.1 p.2) st.cache)
         st.oidSupply st.eidSupply)

/-- The resource-to-Ident pairs found in the in-process cache
(`set(resources) & set(_oids_cache)`). -/
def cachedPairsOf (st : DBState) (rs : List String) : List (String × PyVal) :=
  rs.filterMap fun r => (alookup st.cache r).map fun o => (r, o)

/-- The pairs fetched from the store for the cache misses
(`db.main.find({A: OID_URIREF, V: {"$in": missing}}, [E, V])`). -/
def dbPairsOf (st : DBState) (missing : List String) : List (String × PyVal) :=
  (st.store.filter fun d =>
    (d.a = OID_URIREF : Bool) && (missing.map PyVal.str).contains d.v).filterMap
    fun d => match d.v with | .str r => some (r, d.e) | _ => none

/-- All pairs found in the cache or the store. -/
def foundOf (st : DBState) (rs : List String) : List (String × PyVal) :=
  cachedPairsOf st rs
    ++ dbPairsOf st (rs.filter fun r =>
        !((cachedPairsOf st rs).map Prod.fst).contains r)

/-- The resources found neither in the cache nor in the store. -/
def missingOf (st : DBState) (rs : List String) : List String :=
  rs.filter fun r => !((foundOf st rs).map Prod.fst).contains r

/-- `_oids_for(resources)`: check URI syntax, look the resources up in the
in-process cache, then in the store (`a = OID_URIREF`) for the misses, then
mint fresh ObjectIds for the still-missing ones and persist them with
`_assert_raw`; update the cache with everything found and return the
resource-to-Ident map. -/
def _oids_for (resources : List String) (st : DBState) :
    Except PyError (List (String × PyVal) × DBState) :=
  match check_uris resources with
  | .error e => .error e
  | .ok _ =>
    let rs := dedupF resources
    if missingOf st rs = [] then
      oidsFinish (foundOf st rs) st
    else if (missingOf st rs).length ≤ st.oidSupply.length then
      let newOids := (missingOf st rs).zip
        ((st.oidSupply.take (missingOf st rs).length).map fun p => PyVal.oid p.1 p.2)
      let st1 := DBState.mk st.store st.cache
        (st.oidSupply.drop (missingOf st rs).length) st.eidSupply
      match _assert_raw (newOids.map fun p => (p.2, OID_URIREF, .str p.1)) st1 with
      | .error e => .error e
      | .ok (st2, _) => oidsFinish (foundOf st rs ++ newOids) st2
    else .error (.runtimeErr "oid supply exhausted")

/-- Is a component a "non-literal" in `_compile_to_raw`'s sense: an ObjectId
or a string matching the URI beginning pattern? -/
def isNonLiteral (x : PyVal) : Bool :=
  match x with
  | .oid _ _ => true
  | .str s => uriMatch s
  | _ => false

/-- The URI strings among a statement's three components (Python builds a
set here; first-occurrence order). -/
def stmtResources (stmt : RawStatement) : List String :=
  dedupF ([stmt.1, stmt.2.1, stmt.2.2].filterMap fun x =>
    match x with
    | .str s => if uriMatch s then some s else none
    | _ => none)

/-- `rmap.get(x, x)`: resolve one component through the resource map. -/
def resolveVia (rmap : List (String × PyVal)) (x : PyVal) : PyVal :=
  match x with
  | .str s => (alookup rmap s).getD (.str s)
  | _ => x

/-- Is this attribute value in `LITERAL_VALUED_ATTRIBUTES` (a set of two
expanded URI strings)? -/
def isLiteralValuedAttr (a : PyVal) : Bool :=
  match a with
  | .str s => LITERAL_VALUED_ATTRIBUTES.contains s
  | _ => false

/-- `_compile_to_raw(statement)`: entity and attribute must be non-literals,
the value must be a non-literal unless the attribute is a reserved
literal-valued attribute, and every URI string is resolved to an Ident via
`_oids_for` (which may intern new resources). -/
def _compile_to_raw (stmt : RawStatement) (st : DBState) :
    Except PyError (RawStatement × DBState) :=
  if !(isNonLiteral stmt.1 && isNonLiteral stmt.2.1) then
    .error (.valueErr "Entity and Attribute must both be non-literals")
  else if !isNonLiteral stmt.2.2 && !isLiteralValuedAttr stmt.2.1 then
    .error (.valueErr "Value must be a non-literal")
  else
    match _oids_for (stmtResources stmt) st with
    | .error e => .error e
    | .ok (rmap, st1) =>
      .ok ((resolveVia rmap stmt.1, resolveVia rmap stmt.2.1, resolveVia rmap stmt.2.2),
        st1)

/-- `v_user_is_uri` of `_ensure_structured_literal`: is the expanded value a
string matching the URI beginning pattern? -/
def isUriStr (x : PyVal) : Bool :=
  match x with
  | .str s => uriMatch s
  | _ => false

/-- The fabrication condition of `_ensure_structured_literal`: the expanded
value is not a URI string and the expanded attribute is not a reserved
literal-valued attribute. -/
def fabricates (a_user v_user : PyVal) : Bool :=
  !isUriStr v_user && !isLiteralValuedAttr a_user

/-- `_ensure_structured_literal(statement, use_prefixes)`: prefix-expand the
user triple; when the (expanded) value is not a URI string and the attribute
is not a reserved literal-valued attribute, mint a structured-value entity
`S = ObjectId()` and a fresh unique shareable ID and expand to three
statements; otherwise pass the single statement through. -/
def _ensure_structured_literal (stmt : RawStatement)
    (usePrefixes : List (String × String)) (st : DBState) :
    Except PyError (List RawStatement × DBState) :=
  let P := pyUpdate PREFIXES usePrefixes
  let e_user := prefix_expand_item P stmt.1
  let a_user := prefix_expand_item P stmt.2.1
  let v_user := prefix_expand_item P stmt.2.2
  if fabricates a_user v_user then
    match st.oidSupply with
    | [] => .error (.runtimeErr "oid supply exhausted")
    | (sec, inc) :: oidRest =>
      match generate_id_unique st.eidSupply st.store with
      | none => .error (.runtimeErr "eid supply exhausted")
      | some (eid, eidRest) =>
        match decode_id eid with
        | .error e => .error e
        | .ok n =>
          .ok ([(e_user, a_user, .oid sec inc),
                (.oid sec inc, .str QUDT_VALUE_URI, v_user),
                (.oid sec inc, .str VAEM_ID_URI, .int n)],
               DBState.mk st.store st.cache oidRest eidRest)
  else
    .ok ([(e_user, a_user, v_user)], st)

/-- The list comprehension `[_compile_to_raw(s) for s in expanded_statements]`
with the state threaded left to right. -/
def compileAll : List RawStatement → DBState → Except PyError (List RawStatement × DBState)
  | [], st => .ok ([], st)
  | s :: rest, st =>
    match _compile_to_raw s st with
    | .error e => .error e
    | .ok (r, st1) =>
      match compileAll rest st1 with
      | .error e => .error e
      | .ok (rs, st2) => .ok (r :: rs, st2)

/-- `assert_or_retract(statement, is_assert, use_prefixes)`: expand, compile,
and tag each raw statement with the operation flag; no transact happens
here. -/
def assert_or_retract (stmt : RawStatement) (is_assert : Bool)
    (usePrefixes : List (String × String)) (st : DBState) :
    Except PyError (List RawStatementOperation × DBState) :=
  match _ensure_structured_literal stmt usePrefixes st with
  | .error e => .error e
  | .ok (expanded, st1) =>
    match compileAll expanded st1 with
    | .error e => .error e
    | .ok (raws, st2) => .ok (raws.map fun r => (r.1, r.2.1, r.2.2, is_assert), st2)

/-- `assert_(statement, use_prefixes)`. -/
def assert_ (stmt : RawStatement) (usePrefixes : List (String × String))
    (st : DBState) : Except PyError (List RawStatementOperation × DBState) :=
  assert_or_retract stmt true usePrefixes st

/-- `retract(statement, use_prefixes)`. -/
def retract (stmt : RawStatement) (usePrefixes : List (String × String))
    (st : DBState) : Except PyError (List RawStatementOperation × DBState) :=
  assert_or_retract stmt false usePrefixes st

/-! ### C1: the structured-literal expansion -/

/-- C1 (counterexample): with an Ident (ObjectId) value — neither a primitive
literal nor a URI — and a non-reserved attribute, `_ensure_structured_literal`
does not pass the single statement through unexpanded: the
`isinstance(v_user, str)` test only exempts URI strings, so an Ident value
also triggers the three-statement expansion. -/
theorem structured_literal_ident_value_cex :
    (_ensure_structured_literal (.str "s://h/e", .str "s://h/a", .oid 9 9) []
        (DBState.mk [] [] [(2, 0)] [encode_id 1])).map (fun r => r.1)
      ≠ .ok [(.str "s://h/e", .str "s://h/a", .oid 9 9)] := by decide

/-- C1 (amended): the expansion is fabricated iff the expanded value is not a
URI string (so an Ident value also fabricates) and the expanded attribute is
not a reserved literal-valued attribute; then exactly three statements are
produced — `(E, A, S)`, `(S, qudt:value, V)`, `(S, vaem:id, decoded)` — with
`S` a single fresh Ident and `decoded` fresh among the stored `OID_VAEM_ID`
values; in every other case the single statement passes through unexpanded
and the state is untouched. -/
theorem structured_literal_expansion (stmt : RawStatement)
    (ups : List (String × String)) (st : DBState) (exps : List RawStatement)
    (st' : DBState)
    (h : _ensure_structured_literal stmt ups st = .ok (exps, st')) :
    (exps.length = 3 ↔
      fabricates (prefix_expand_item (pyUpdate PREFIXES ups) stmt.2.1)
        (prefix_expand_item (pyUpdate PREFIXES ups) stmt.2.2) = true) ∧
    (fabricates (prefix_expand_item (pyUpdate PREFIXES ups) stmt.2.1)
        (prefix_expand_item (pyUpdate PREFIXES ups) stmt.2.2) = true →
      ∃ sec inc n : Nat,
        exps = [(prefix_expand_item (pyUpdate PREFIXES ups) stmt.1,
                 prefix_expand_item (pyUpdate PREFIXES ups) stmt.2.1, .oid sec inc),
                (.oid sec inc, .str QUDT_VALUE_URI,
                 prefix_expand_item (pyUpdate PREFIXES ups) stmt.2.2),
                (.oid sec inc, .str VAEM_ID_URI, .int n)] ∧
        countVaem st.store n = 0) ∧
    (fabricates (prefix_expand_item (pyUpdate PREFIXES ups) stmt.2.1)
        (prefix_expand_item (pyUpdate PREFIXES ups) stmt.2.2) = false →
      exps = [(prefix_expand_item (pyUpdate PREFIXES ups) stmt.1,
               prefix_expand_item (pyUpdate PREFIXES ups) stmt.2.1,
               prefix_expand_item (pyUpdate PREFIXES ups) stmt.2.2)] ∧ st' = st) := by
  simp only [_ensure_structured_literal] at h
  cases hf : fabricates (prefix_expand_item (pyUpdate PREFIXES ups) stmt.2.1)
      (prefix_expand_item (pyUpdate PREFIXES ups) stmt.2.2) with
  | false =>
    rw [hf] at h
    simp only [Bool.false_eq_true, if_false] at h
    injection h with h
    injection h with h1 h2
    subst h1
    subst h2
    refine ⟨by simp, ?_, ?_⟩
    · intro hcon
      cases hcon
    · intro _
      exact ⟨rfl, rfl⟩
  | true =>
    rw [hf] at h
    simp only [if_true] at h
    cases hsup : st.oidSupply with
    | nil =>
      rw [hsup] at h
      cases h
    | cons p oidRest =>
      obtain ⟨sec, inc⟩ := p
      rw [hsup] at h
      cases hgen : generate_id_unique st.eidSupply st.store with
      | none =>
        simp only [hgen] at h
        cases h
      | some q =>
        obtain ⟨eid, eidRest⟩ := q
        simp only [hgen] at h
        obtain ⟨n, used, hdec, hcount, hsplit, hused⟩ :=
          generate_id_unique_spec st.eidSupply st.store eid eidRest hgen
        simp only [hdec] at h
        injection h with h
        injection h with h1 h2
        subst h1
        refine ⟨by simp, fun _ => ⟨sec, inc, n, rfl, hcount⟩, ?_⟩
        intro hcon
        cases hcon

/-- Witness for C1 at a concrete input: a primitive string literal value and
a non-reserved attribute, with fresh supplies `(2,0)` and `encode_id 1`. -/
theorem structured_literal_expansion_witness :
    (([((.str "s://h/e" : PyVal), (.str "s://h/a" : PyVal), (.oid 2 0 : PyVal)),
       ((.oid 2 0 : PyVal), (.str QUDT_VALUE_URI : PyVal), (.str "hello" : PyVal)),
       ((.oid 2 0 : PyVal), (.str VAEM_ID_URI : PyVal), (.int 1 : PyVal))] :
        List RawStatement).length = 3 ↔
      fabricates (prefix_expand_item (pyUpdate PREFIXES []) (.str "s://h/a"))
        (prefix_expand_item (pyUpdate PREFIXES []) (.str "hello")) = true) ∧
    (fabricates (prefix_expand_item (pyUpdate PREFIXES []) (.str "s://h/a"))
        (prefix_expand_item (pyUpdate PREFIXES []) (.str "hello")) = true →
      ∃ sec inc n : Nat,
        ([((.str "s://h/e" : PyVal), (.str "s://h/a" : PyVal), (.oid 2 0 : PyVal)),
          ((.oid 2 0 : PyVal), (.str QUDT_VALUE_URI : PyVal), (.str "hello" : PyVal)),
          ((.oid 2 0 : PyVal), (.str VAEM_ID_URI : PyVal), (.int 1 : PyVal))] :
            List RawStatement)
          = [(prefix_expand_item (pyUpdate PREFIXES []) (.str "s://h/e"),
              prefix_expand_item (pyUpdate PREFIXES []) (.str "s://h/a"), .oid sec inc),
             (.oid sec inc, .str QUDT_VALUE_URI,
              prefix_expand_item (pyUpdate PREFIXES []) (.str "hello")),
             (.oid sec inc, .str VAEM_ID_URI, .int n)] ∧
        countVaem (DBState.mk [] [] [(2, 0)] [encode_id 1]).store n = 0) ∧
    (fabricates (prefix_expand_item (pyUpdate PREFIXES []) (.str "s://h/a"))
        (prefix_expand_item (pyUpdate PREFIXES []) (.str "hello")) = false →
      ([((.str "s://h/e" : PyVal), (.str "s://h/a" : PyVal), (.oid 2 0 : PyVal)),
        ((.oid 2 0 : PyVal), (.str QUDT_VALUE_URI : PyVal), (.str "hello" : PyVal)),
        ((.oid 2 0 : PyVal), (.str VAEM_ID_URI : PyVal), (.int 1 : PyVal))] :
          List RawStatement)
        = [(prefix_expand_item (pyUpdate PREFIXES []) (.str "s://h/e"),
            prefix_expand_item (pyUpdate PREFIXES []) (.str "s://h/a"),
            prefix_expand_item (pyUpdate PREFIXES []) (.str "hello"))] ∧
      DBState.mk [] [] [] [] = DBState.mk [] [] [(2, 0)] [encode_id 1]) :=
  structured_literal_expansion
    ((.str "s://h/e" : PyVal), (.str "s://h/a" : PyVal), (.str "hello" : PyVal)) []
    (DBState.mk [] [] [(2, 0)] [encode_id 1])
    [((.str "s://h/e" : PyVal), (.str "s://h/a" : PyVal), (.oid 2 0 : PyVal)),
     ((.oid 2 0 : PyVal), (.str QUDT_VALUE_URI : PyVal), (.str "hello" : PyVal)),
     ((.oid 2 0 : PyVal), (.str VAEM_ID_URI : PyVal), (.int 1 : PyVal))]
    (DBState.mk [] [] [] []) (by decide)

/-! ### C9: compilation side effects -/

/-- A resource is resolvable against a state: it is in the in-process cache
or stored as the value of an `OID_URIREF` datom. -/
def resolvable (st : DBState) (r : String) : Prop :=
  (alookup st.cache r).isSome = true ∨ ∃ d ∈ st.store, d.a = OID_URIREF ∧ d.v = .str r

instance (st : DBState) (r : String) : Decidable (resolvable st r) := by
  unfold resolvable
  infer_instance

lemma contains_iff_mem {α : Type} [DecidableEq α] {l : List α} {x : α} :
    l.contains x = true ↔ x ∈ l :=
  List.elem_iff

lemma alookup_pyInsert {α β : Type} [DecidableEq α] (m : List (α × β)) (k : α) (v : β)
    (k' : α) : alookup (pyInsert m k v) k' = if k = k' then some v else alookup m k' := by
  induction m with
  | nil =>
    by_cases h : k = k' <;> simp [pyInsert, alookup, h]
  | cons p rest ih =>
    obtain ⟨k0, v0⟩ := p
    by_cases h0 : k0 = k <;> by_cases h : k = k' <;> by_cases h1 : k0 = k' <;>
      simp_all [pyInsert, alookup]

lemma alookup_foldl_pyInsert_isSome {α β : Type} [DecidableEq α] :
    ∀ (ps : List (α × β)) (m : List (α × β)) (k : α), (alookup m k).isSome = true →
      (alookup (ps.foldl (fun m p => pyInsert m p.1 p.2) m) k).isSome = true := by
  intro ps
  induction ps with
  | nil =>
    intro m k h
    exact h
  | cons p rest ih =>
    intro m k h
    apply ih
    rw [alookup_pyInsert]
    by_cases hp : p.1 = k
    · rw [if_pos hp]
      rfl
    · rw [if_neg hp]
      exact h

lemma mem_foldl_dedup {α : Type} [DecidableEq α] :
    ∀ (l acc : List α) (x : α),
      x ∈ l.foldl (fun acc a => if a ∈ acc then acc else acc ++ [a]) acc ↔
        x ∈ acc ∨ x ∈ l := by
  intro l
  induction l with
  | nil => simp
  | cons a rest ih =>
    intro acc x
    show x ∈ List.foldl _ (if a ∈ acc then acc else acc ++ [a]) rest ↔ _
    rw [ih]
    by_cases ha : a ∈ acc
    · rw [if_pos ha]
      simp only [List.mem_cons]
      constructor
      · rintro (h | h)
        · exact Or.inl h
        · exact Or.inr (Or.inr h)
      · rintro (h | h | h)
        · exact Or.inl h
        · exact Or.inl (h ▸ ha)
        · exact Or.inr h
    · rw [if_neg ha]
      simp only [List.mem_append, List.mem_singleton, List.mem_cons]
      tauto

lemma mem_dedupF {α : Type} [DecidableEq α] {l : List α} {x : α} :
    x ∈ dedupF l ↔ x ∈ l := by
  unfold dedupF
  rw [mem_foldl_dedup]
  simp

lemma resolvable_of_eq {st st' : DBState} {r : String} (h1 : st'.store = st.store)
    (h2 : st'.cache = st.cache) (h : resolvable st r) : resolvable st' r := by
  unfold resolvable at h ⊢
  rw [h1, h2]
  exact h

lemma mem_foundOf_of_cached {st : DBState} {rs : List String} {r : String}
    (hr : r ∈ rs) (hc : (alookup st.cache r).isSome = true) :
    r ∈ (foundOf st rs).map Prod.fst := by
  cases ho : alookup st.cache r with
  | none =>
    rw [ho] at hc
    cases hc
  | some o =>
    have hmem : (r, o) ∈ cachedPairsOf st rs := by
      rw [cachedPairsOf, List.mem_filterMap]
      exact ⟨r, hr, by rw [ho]; rfl⟩
    unfold foundOf
    rw [List.map_append]
    exact List.mem_append.mpr (Or.inl (List.mem_map_of_mem Prod.fst hmem))

lemma mem_foundOf_of_resolvable {st : DBState} {rs : List String} {r : String}
    (hr : r ∈ rs) (h : resolvable st r) : r ∈ (foundOf st rs).map Prod.fst := by
  rcases h with hc | ⟨d, hd, hda, hdv⟩
  · exact mem_foundOf_of_cached hr hc
  · by_cases hcache : (alookup st.cache r).isSome = true
    · exact mem_foundOf_of_cached hr hcache
    · have hm1 : r ∈ rs.filter fun r =>
          !((cachedPairsOf st rs).map Prod.fst).contains r := by
        rw [List.mem_filter]
        refine ⟨hr, ?_⟩
        simp only [Bool.not_eq_true']
        rw [Bool.eq_false_iff]
        intro hcon
        obtain ⟨p, hp, hpr⟩ := List.mem_map.mp (contains_iff_mem.mp hcon)
        obtain ⟨r0, hr0, hr0e⟩ := List.mem_filterMap.mp
          (by rw [cachedPairsOf] at hp; exact hp)
        dsimp only at hr0e
        cases ho : alookup st.cache r0 with
        | none =>
          rw [ho] at hr0e
          cases hr0e
        | some o =>
          rw [ho] at hr0e
          injection hr0e with hr0e
          apply hcache
          have : p.1 = r0 := by rw [← hr0e]
          rw [← hpr, this, ho]
          rfl
      have hmem : (r, d.e) ∈ dbPairsOf st (rs.filter fun r =>
          !((cachedPairsOf st rs).map Prod.fst).contains r) := by
        rw [dbPairsOf, List.mem_filterMap]
        refine ⟨d, ?_, by rw [hdv]⟩
        rw [List.mem_filter]
        refine ⟨hd, ?_⟩
        rw [Bool.and_eq_true]
        refine ⟨by rw [hda]; simp, ?_⟩
        rw [contains_iff_mem, hdv]
        exact List.mem_map_of_mem PyVal.str hm1
      unfold foundOf
      rw [List.map_append]
      exact List.mem_append.mpr (Or.inr (List.mem_map_of_mem Prod.fst hmem))

lemma oids_for_read_only (resources : List String) (st : DBState)
    (rmap : List (String × PyVal)) (st' : DBState)
    (hres : ∀ r ∈ resources, resolvable st r)
    (h : _oids_for resources st = .ok (rmap, st')) :
    st'.store = st.store ∧ st'.oidSupply = st.oidSupply ∧
    st'.eidSupply = st.eidSupply ∧ ∀ r, resolvable st r → resolvable st' r := by
  simp only [_oids_for] at h
  cases hck : check_uris resources with
  | error e =>
    rw [hck] at h
    cases h
  | ok rs0 =>
    simp only [hck] at h
    have hmiss : missingOf st (dedupF resources) = [] := by
      rw [missingOf, List.filter_eq_nil_iff]
      intro r hr
      simp only [Bool.not_eq_true, Bool.not_eq_false, Bool.not_eq_false',
        contains_iff_mem]
      exact mem_foundOf_of_resolvable hr (hres r (mem_dedupF.mp hr))
    rw [if_pos hmiss] at h
    unfold oidsFinish at h
    injection h with h
    injection h with h1 h2
    constructor
    · rw [← h2]
    constructor
    · rw [← h2]
    constructor
    · rw [← h2]
    · intro r hrr
      rcases hrr with hc | hstore
      · left
        rw [← h2]
        exact alookup_foldl_pyInsert_isSome _ st.cache r hc
      · right
        rw [← h2]
        exact hstore

lemma compile_to_raw_read_only (s : RawStatement) (st : DBState) (r : RawStatement)
    (st' : DBState) (hres : ∀ x ∈ stmtResources s, resolvable st x)
    (h : _compile_to_raw s st = .ok (r, st')) :
    st'.store = st.store ∧ st'.oidSupply = st.oidSupply ∧
    st'.eidSupply = st.eidSupply ∧ ∀ x, resolvable st x → resolvable st' x := by
  unfold _compile_to_raw at h
  cases hc1 : isNonLiteral s.1 && isNonLiteral s.2.1 with
  | false =>
    rw [hc1] at h
    rw [if_pos (by simp)] at h
    cases h
  | true =>
    rw [hc1] at h
    rw [if_neg (by simp)] at h
    cases hc2 : !isNonLiteral s.2.2 && !isLiteralValuedAttr s.2.1 with
    | true =>
      rw [hc2] at h
      rw [if_pos rfl] at h
      cases h
    | false =>
      rw [hc2] at h
      rw [if_neg (by simp)] at h
      cases ho : _oids_for (stmtResources s) st with
      | error e =>
        rw [ho] at h
        cases h
      | ok pr =>
        obtain ⟨rmap, st1⟩ := pr
        simp only [ho] at h
        injection h with h
        injection h with h1 h2
        subst h2
        exact oids_for_read_only (stmtResources s) st rmap st1 hres ho

lemma compileAll_read_only :
    ∀ (ss : List RawStatement) (st : DBState) (rs : List RawStatement) (st' : DBState),
    (∀ s ∈ ss, ∀ x ∈ stmtResources s, resolvable st x) →
    compileAll ss st = .ok (rs, st') →
    st'.store = st.store ∧ st'.oidSupply = st.oidSupply ∧
    st'.eidSupply = st.eidSupply ∧ ∀ x, resolvable st x → resolvable st' x := by
  intro ss
  induction ss with
  | nil =>
    intro st rs st' hres h
    injection h with h
    injection h with h1 h2
    subst h2
    exact ⟨rfl, rfl, rfl, fun x hx => hx⟩
  | cons s rest ih =>
    intro st rs st' hres h
    unfold compileAll at h
    cases hc : _compile_to_raw s st with
    | error e =>
      simp only [hc] at h
      cases h
    | ok pr =>
      obtain ⟨r1, st1⟩ := pr
      simp only [hc] at h
      cases hrest : compileAll rest st1 with
      | error e =>
        simp only [hrest] at h
        cases h
      | ok pr2 =>
        obtain ⟨rs2, st2⟩ := pr2
        simp only [hrest] at h
        injection h with h
        injection h with h1 h2
        subst h2
        have hs1 := compile_to_raw_read_only s st r1 st1
          (hres s (List.mem_cons_self s rest)) hc
        have hres1 : ∀ s' ∈ rest, ∀ x ∈ stmtResources s', resolvable st1 x :=
          fun s' hs' x hx => hs1.2.2.2 x (hres s' (List.mem_cons_of_mem s hs') x hx)
        have hs2 := ih st1 rs2 st2 hres1 hrest
        refine ⟨by rw [hs2.1, hs1.1], by rw [hs2.2.1, hs1.2.1],
          by rw [hs2.2.2.1, hs1.2.2.1], ?_⟩
        exact fun x hx => hs2.2.2.2 x (hs1.2.2.2 x hx)

lemma ensure_read_only (stmt : RawStatement) (ups : List (String × String))
    (st : DBState) (exps : List RawStatement) (st1 : DBState)
    (h : _ensure_structured_literal stmt ups st = .ok (exps, st1)) :
    st1.store = st.store ∧ st1.cache = st.cache := by
  simp only [_ensure_structured_literal] at h
  cases hf : fabricates (prefix_expand_item (pyUpdate PREFIXES ups) stmt.2.1)
      (prefix_expand_item (pyUpdate PREFIXES ups) stmt.2.2) with
  | false =>
    rw [hf] at h
    simp only [Bool.false_eq_true, if_false] at h
    injection h with h
    injection h with h1 h2
    rw [← h2]
    exact ⟨rfl, rfl⟩
  | true =>
    rw [hf] at h
    simp only [if_true] at h
    cases hsup : st.oidSupply with
    | nil =>
      rw [hsup] at h
      cases h
    | cons p oidRest =>
      obtain ⟨sec, inc⟩ := p
      rw [hsup] at h
      cases hgen : generate_id_unique st.eidSupply st.store with
      | none =>
        simp only [hgen] at h
        cases h
      | some q =>
        obtain ⟨eid, eidRest⟩ := q
        simp only [hgen] at h
        cases hdec : decode_id eid with
        | error e =>
          simp only [hdec] at h
          cases h
        | ok n =>
          simp only [hdec] at h
          injection h with h
          injection h with h1 h2
          rw [← h2]
          exact ⟨rfl, rfl⟩

/-- C9 (counterexample): `assert_` is not compile-only. Compiling a statement
over three previously unseen URIs interns them: the store grows by five
datoms (three `OID_URIREF` datoms plus the two reifying datoms of the side
transaction), while one operation is returned. -/
theorem compile_only_cex :
    (assert_or_retract (.str "s://h/e", .str "s://h/a", .str "s://h/v") true []
        (DBState.mk [] [] [(11, 1), (11, 2), (11, 3), (12, 0)] [encode_id 4])).map
      (fun r => (r.1.length, r.2.store.length)) = .ok (1, 5) := by decide

/-- C9 (amended): `assert_or_retract` (hence `assert_` and `retract`) returns
the compiled `(e, a, v, op)` operations with the requested flag, and leaves
the datom store unchanged provided every URI resource of the expanded
statements already resolves (in the cache or as a stored `OID_URIREF`
datom); when some resource is unseen, interning writes datoms as a side
transaction. -/
theorem compile_only_amended (stmt : RawStatement) (b : Bool)
    (ups : List (String × String)) (st : DBState)
    (exps : List RawStatement) (st1 : DBState)
    (hens : _ensure_structured_literal stmt ups st = .ok (exps, st1))
    (hres : ∀ s ∈ exps, ∀ x ∈ stmtResources s, resolvable st x)
    (ops : List RawStatementOperation) (st' : DBState)
    (h : assert_or_retract stmt b ups st = .ok (ops, st')) :
    st'.store = st.store ∧ ∀ o ∈ ops, o.2.2.2 = b := by
  unfold assert_or_retract at h
  rw [hens] at h
  cases hcomp : compileAll exps st1 with
  | error e =>
    simp only [hcomp] at h
    cases h
  | ok pr =>
    obtain ⟨raws, st2⟩ := pr
    simp only [hcomp] at h
    injection h with h
    injection h with h1 h2
    have hpre := ensure_read_only stmt ups st exps st1 hens
    have hres1 : ∀ s ∈ exps, ∀ x ∈ stmtResources s, resolvable st1 x :=
      fun s hs x hx => resolvable_of_eq hpre.1 hpre.2 (hres s hs x hx)
    have hall := compileAll_read_only exps st1 raws st2 hres1 hcomp
    constructor
    · rw [← h2, hall.1, hpre.1]
    · intro o ho
      rw [← h1] at ho
      obtain ⟨q, -, hq⟩ := List.mem_map.mp ho
      rw [← hq]

/-- Witness for C9 at a concrete input: all three resources are already in
the cache, so compilation returns one tagged operation and the store is
unchanged. -/
theorem compile_only_amended_witness :
    (DBState.mk ([] : List Datom)
        [("s://h/e", PyVal.oid 21 0), ("s://h/a", PyVal.oid 22 0),
         ("s://h/v", PyVal.oid 23 0)] [] []).store
      = (DBState.mk ([] : List Datom)
        [("s://h/e", PyVal.oid 21 0), ("s://h/a", PyVal.oid 22 0),
         ("s://h/v", PyVal.oid 23 0)] [] []).store ∧
    ∀ o ∈ ([((.oid 21 0 : PyVal), (.oid 22 0 : PyVal), (.oid 23 0 : PyVal), true)] :
        List RawStatementOperation), o.2.2.2 = true :=
  compile_only_amended (.str "s://h/e", .str "s://h/a", .str "s://h/v") true []
    (DBState.mk []
      [("s://h/e", PyVal.oid 21 0), ("s://h/a", PyVal.oid 22 0),
       ("s://h/v", PyVal.oid 23 0)] [] [])
    [(.str "s://h/e", .str "s://h/a", .str "s://h/v")]
    (DBState.mk []
      [("s://h/e", PyVal.oid 21 0), ("s://h/a", PyVal.oid 22 0),
       ("s://h/v", PyVal.oid 23 0)] [] [])
    (by decide) (by decide)
    [((.oid 21 0 : PyVal), (.oid 22 0 : PyVal), (.oid 23 0 : PyVal), true)]
    (DBState.mk []
      [("s://h/e", PyVal.oid 21 0), ("s://h/a", PyVal.oid 22 0),
       ("s://h/v", PyVal.oid 23 0)] [] [])
    (by decide)

/-! ### The as-of view (`as_of`): C3 and C10 -/

/-- `py_.set_(filter_, [T, "$lte"], oid)`: set the `$lte` entry of the
filter's `t` condition. pydash `set_` mutates its first argument in place;
a scalar `t` condition is replaced by an operator object (pydash overwrites
a non-object intermediate value), an existing `t.$lte` entry is overwritten,
and a missing `t` key is appended. -/
def pySetTLte : Filter → PyVal → Filter
  | [], c => [("t", .ops [("$lte", .scalar c)])]
  | (k, cond) :: rest, c =>
    if k = "t" then
      (k, match cond with
          | .ops l => .ops (pyInsert l "$lte" (.scalar c))
          | .eqv _ => .ops [("$lte", .scalar c)]) :: rest
    else (k, cond) :: pySetTLte rest c

/-- The higher-order filter `docs_for` returned by `as_of` with Ident cutoff
`t₀`: given a caller filter it sets `t.$lte = t₀` in place and returns a
cursor over the collection with the combined filter. The first component is
the caller's filter object as it stands after the call — `py_.set_`'s
in-place mutation made explicit. -/
def docs_for (store : List Datom) (cutoff : PyVal) (f : Filter) :
    Filter × List Datom :=
  (pySetTLte f cutoff, findDocs store (pySetTLte f cutoff))

/-- Insertion step of a sort by descending `t`. -/
def insertTDesc (d : Datom) : List Datom → List Datom
  | [] => [d]
  | d' :: rest => if pyLe d.t d'.t then d' :: insertTDesc d rest else d :: d' :: rest

/-- Sort documents by descending `t` (`sort=[(T, DESC)]`). -/
def sortTDesc (l : List Datom) : List Datom := l.foldr insertTDesc []

/-- `coll.find_one(filter, sort=[(T, DESC)])`: the first matching document
in descending-`t` order, or `None`. -/
def find_one_tdesc (store : List Datom) (f : Filter) : Option Datom :=
  (sortTDesc (findDocs store f)).head?

/-- The cutoff filter `{A: OID_GENERATED_AT_TIME, V: {"$lte": t}}` used by
`as_of` for a datetime input. -/
def asOfCutoffFilter (τ : Nat) : Filter :=
  [("a", .eqv OID_GENERATED_AT_TIME), ("v", .ops [("$lte", .scalar (.dt τ))])]

/-- `as_of(coll, t)` with a datetime `t`: resolve the cutoff Ident by
`coll.find_one({A: OID_GENERATED_AT_TIME, V: {"$lte": t}}, [E],
sort=[(T, DESC)])[E]`; when `find_one` returns `None` the `[E]` subscript
raises an (unhandled) `TypeError`. -/
def as_of_instant (store : List Datom) (τ : Nat) : Except PyError PyVal :=
  match find_one_tdesc store (asOfCutoffFilter τ) with
  | none => .error (.typeErr "NoneType object is not subscriptable")
  | some d => .ok d.e

/-- C3 (counterexample): the higher-order filter returned by `as_of` mutates
the caller-supplied filter object: `py_.set_` writes the `t.$lte` constraint
into it in place, so an (initially empty) filter is no longer equal to its
original value after the call. -/
theorem as_of_mutates_filter_cex :
    (docs_for [] (PyVal.oid 3 0) ([] : Filter)).1 ≠ ([] : Filter) := by decide

lemma pySetTLte_of_no_t {f : Filter} {c : PyVal} (hf : ∀ p ∈ f, p.1 ≠ "t") :
    pySetTLte f c = f ++ [("t", .ops [("$lte", .scalar c)])] := by
  induction f with
  | nil => rfl
  | cons p rest ih =>
    obtain ⟨k, cond⟩ := p
    have hk : k ≠ "t" := hf (k, cond) (List.mem_cons_self _ _)
    show (if k = "t" then _ else (k, cond) :: pySetTLte rest c) = _
    rw [if_neg hk, ih fun q hq => hf q (List.mem_cons_of_mem _ hq)]
    rfl

lemma matchFilter_append_tlte (d : Datom) (f : Filter) (c : PyVal) :
    matchFilter d (f ++ [("t", .ops [("$lte", .scalar c)])])
      = (matchFilter d f && pyLe d.t c) := by
  unfold matchFilter
  rw [List.all_append]
  have : ([("t", FCond.ops [("$lte", FArg.scalar c)])] : Filter).all
      (fun p => match getField d p.1 with
        | some x => matchCond x p.2
        | none => false) = pyLe d.t c := by
    show (matchCond d.t (.ops [("$lte", .scalar c)]) && true) = pyLe d.t c
    show ((matchOp "$lte" (.scalar c) d.t && true) && true) = pyLe d.t c
    simp [matchOp]
  rw [this]

/-- C3 (amended): for a caller filter with no `t` entry, the cursor produced
by `as_of`'s higher-order filter ranges over exactly the documents matching
the caller filter conjoined with `t ≤ t₀`; but the combined filter is
written into the caller-supplied filter object in place, so after the call
the caller's filter equals the combined filter (it is not left unchanged,
and an existing `t.$lte` entry would be overwritten rather than conjoined). -/
theorem as_of_filter_semantics (store : List Datom) (c : PyVal) (f : Filter)
    (hf : ∀ p ∈ f, p.1 ≠ "t") :
    (docs_for store c f).1 = f ++ [("t", .ops [("$lte", .scalar c)])] ∧
    (docs_for store c f).2
      = store.filter (fun d => matchFilter d f && pyLe d.t c) := by
  have hset := pySetTLte_of_no_t (c := c) hf
  constructor
  · exact hset
  · show findDocs store (pySetTLte f c) = _
    rw [hset]
    unfold findDocs
    apply List.filter_congr
    intro d _
    exact matchFilter_append_tlte d f c

/-- Witness for C3 (amended) at a concrete input: a filter on `a` only, one
matching document, cutoff `(9, 9)`. -/
theorem as_of_filter_semantics_witness :
    (docs_for [⟨.oid 4 0, OID_URIREF, .str "s://x", .oid 5 0, true⟩] (PyVal.oid 9 9)
        ([("a", .eqv OID_URIREF)] : Filter)).1
      = ([("a", .eqv OID_URIREF)] : Filter)
        ++ [("t", .ops [("$lte", .scalar (PyVal.oid 9 9))])] ∧
    (docs_for [⟨.oid 4 0, OID_URIREF, .str "s://x", .oid 5 0, true⟩] (PyVal.oid 9 9)
        ([("a", .eqv OID_URIREF)] : Filter)).2
      = [(⟨.oid 4 0, OID_URIREF, .str "s://x", .oid 5 0, true⟩ : Datom)].filter
          (fun d => matchFilter d ([("a", .eqv OID_URIREF)] : Filter)
            && pyLe d.t (PyVal.oid 9 9)) :=
  as_of_filter_semantics [⟨.oid 4 0, OID_URIREF, .str "s://x", .oid 5 0, true⟩]
    (PyVal.oid 9 9) [("a", .eqv OID_URIREF)] (by decide)

lemma insertTDesc_ne_nil (d : Datom) (l : List Datom) : insertTDesc d l ≠ [] := by
  cases l with
  | nil => simp [insertTDesc]
  | cons d0 rest =>
    unfold insertTDesc
    split <;> simp

lemma sortTDesc_eq_nil_iff (l : List Datom) : sortTDesc l = [] ↔ l = [] := by
  cases l with
  | nil => simp [sortTDesc]
  | cons d rest =>
    show insertTDesc d (sortTDesc rest) = [] ↔ _
    simp [insertTDesc_ne_nil]

lemma mem_insertTDesc {d x : Datom} : ∀ {l : List Datom},
    x ∈ insertTDesc d l ↔ x = d ∨ x ∈ l := by
  intro l
  induction l with
  | nil => simp [insertTDesc]
  | cons d0 rest ih =>
    unfold insertTDesc
    split
    · simp only [List.mem_cons, ih]
      tauto
    · simp only [List.mem_cons]

lemma mem_sortTDesc {x : Datom} : ∀ {l : List Datom}, x ∈ sortTDesc l ↔ x ∈ l := by
  intro l
  induction l with
  | nil => simp [sortTDesc]
  | cons d rest ih =>
    show x ∈ insertTDesc d (sortTDesc rest) ↔ _
    rw [mem_insertTDesc]
    simp [ih, List.mem_cons]

lemma matchFilter_asOfCutoff (d : Datom) (τ : Nat) :
    matchFilter d (asOfCutoffFilter τ) = true ↔
      d.a = OID_GENERATED_AT_TIME ∧ pyLe d.v (.dt τ) = true := by
  show ((matchCond d.a (.eqv OID_GENERATED_AT_TIME)
    && (matchCond d.v (.ops [("$lte", .scalar (.dt τ))]) && true)) = true) ↔ _
  simp [matchCond, matchOp]

/-- C10: `as_of` called with an instant `τ` succeeds exactly when the store
holds some datom with attribute `OID_GENERATED_AT_TIME` and value `≤ τ`;
when no transaction precedes `τ`, `find_one` returns no document and the
subscript on the missing result raises an unhandled `TypeError`, not one of
the specified error kinds. -/
theorem as_of_instant_defined (store : List Datom) (τ : Nat) :
    ((∃ d ∈ store, d.a = OID_GENERATED_AT_TIME ∧ pyLe d.v (.dt τ) = true) ↔
      ∃ e, as_of_instant store τ = .ok e) ∧
    (¬(∃ d ∈ store, d.a = OID_GENERATED_AT_TIME ∧ pyLe d.v (.dt τ) = true) →
      as_of_instant store τ = .error (.typeErr "NoneType object is not subscriptable")) := by
  unfold as_of_instant find_one_tdesc
  have hiff : (∃ d ∈ store, d.a = OID_GENERATED_AT_TIME ∧ pyLe d.v (.dt τ) = true) ↔
      findDocs store (asOfCutoffFilter τ) ≠ [] := by
    unfold findDocs
    constructor
    · rintro ⟨d, hd, h1, h2⟩ hnil
      have : d ∈ store.filter fun d => matchFilter d (asOfCutoffFilter τ) := by
        rw [List.mem_filter]
        exact ⟨hd, (matchFilter_asOfCutoff d τ).mpr ⟨h1, h2⟩⟩
      rw [hnil] at this
      cases this
    · intro hne
      obtain ⟨d, hd⟩ := List.exists_mem_of_ne_nil _ hne
      rw [List.mem_filter] at hd
      exact ⟨d, hd.1, (matchFilter_asOfCutoff d τ).mp hd.2⟩
  cases hfd : sortTDesc (findDocs store (asOfCutoffFilter τ)) with
  | nil =>
    have hempty : findDocs store (asOfCutoffFilter τ) = [] :=
      (sortTDesc_eq_nil_iff _).mp hfd
    constructor
    · constructor
      · intro hex
        exact absurd hempty (hiff.mp hex)
      · rintro ⟨e, he⟩
        cases he
    · intro _
      rfl
  | cons d0 rest =>
    constructor
    · constructor
      · intro _
        exact ⟨d0.e, rfl⟩
      · intro _
        apply hiff.mpr
        intro hnil
        rw [← sortTDesc_eq_nil_iff] at hnil
        rw [hfd] at hnil
        cases hnil
    · intro hcon
      exfalso
      apply hcon
      apply hiff.mpr
      intro hnil
      rw [← sortTDesc_eq_nil_iff] at hnil
      rw [hfd] at hnil
      cases hnil

/-! ### The query evaluator (`src/maggtomic/query.py`): C4 -/

/-- One term of a compiled graph-pattern clause: a plain value (an ObjectId
ground term, a `?variable` string or a leftover ground string), or a
single-entry predicate mapping `spec = {?var: {operator: value, ...}}`. -/
inductive QTerm : Type where
  | lit (v : PyVal)
  | pmap (k : String) (ops : List (String × FArg))
deriving DecidableEq, Repr

/-- A binding: a dict from variable names to values. -/
abbrev Binding : Type := List (String × PyVal)

/-- `spec.startswith("?")`. -/
def isVarStr (s : String) : Bool :=
  match s.data with
  | '?' :: _ => true
  | _ => false

/-- The filter `cursor_for` builds from the zipped condition: a dict
contributes its operator object, an ObjectId or non-variable string an
equality, a variable is skipped, and any other value raises `ValueError`. -/
def cursorFilterAux : List (QTerm × String) → Except PyError Filter
  | [] => .ok []
  | (q, field) :: rest =>
    match q with
    | .pmap _ ops =>
      match cursorFilterAux rest with
      | .error e => .error e
      | .ok f => .ok ((field, .ops ops) :: f)
    | .lit (.oid s i) =>
      match cursorFilterAux rest with
      | .error e => .error e
      | .ok f => .ok ((field, .eqv (.oid s i)) :: f)
    | .lit (.str s) =>
      if isVarStr s then cursorFilterAux rest
      else
        match cursorFilterAux rest with
        | .error e => .error e
        | .ok f => .ok ((field, .eqv (.str s)) :: f)
    | .lit _ => .error (.valueErr "Unsupported type for spec")

/-- `cursor_for(condition, coll_hof)`: build the field filter and draw the
cursor through the as-of higher-order filter. -/
def cursor_for (cond : List QTerm) (store : List Datom) (cutoff : PyVal) :
    Except PyError (List Datom) :=
  match cursorFilterAux (cond.zip ["e", "a", "v"]) with
  | .error e => .error e
  | .ok f => .ok (docs_for store cutoff f).2

/-- One step of `get_doc_binder`'s loop for a string spec (a dict's key or a
plain string): a `?variable` binds the field value, any other string must
equal the field value. -/
def bindSpec (b : Binding) (s : String) (fv : PyVal) : Option Binding :=
  if isVarStr s then some (pyInsert b s fv)
  else if PyVal.str s = fv then some b
  else none

/-- The loop of `get_doc_binder`'s `doc_binding` over the zipped condition. -/
def bindLoop : List (QTerm × PyVal) → Binding → Option Binding
  | [], b => some b
  | (q, fv) :: rest, b =>
    match q with
    | .pmap k _ =>
      match bindSpec b k fv with
      | none => none
      | some b2 => bindLoop rest b2
    | .lit (.str s) =>
      match bindSpec b s fv with
      | none => none
      | some b2 => bindLoop rest b2
    | .lit g => if g = fv then bindLoop rest b else none

/-- `doc_binding(doc)` from `get_doc_binder(condition)`: bind the clause's
variables against the document's `(e, a, v)`, then
`return binding if binding else None` — an empty (falsy) binding is
returned as `None`. -/
def doc_binding (cond : List QTerm) (d : Datom) : Option Binding :=
  match bindLoop (cond.zip [d.e, d.a, d.v]) [] with
  | none => none
  | some b => if b = [] then none else some b

/-- Modelled from the spec (for comparison with `doc_binding`): "each cursor
row whose fields agree with the clause's ground terms yields one binding
over the clause's variables (the empty binding when the clause has no
variables)" — the same binding loop without the final falsiness discard. -/
def spec_doc_binding (cond : List QTerm) (d : Datom) : Option Binding :=
  bindLoop (cond.zip [d.e, d.a, d.v]) []

/-- `itertools.product(bindings1, bindings2)`. -/
def pyProduct {α β : Type} (l1 : List α) (l2 : List β) : List (α × β) :=
  l1.flatMap fun a => l2.map fun b => (a, b)

/-- The inner loop of `merge_binding_collections`: copy `b1`, then insert
`b2`'s items, failing on a key bound to a different value. -/
def merge_binding : Binding → List (String × PyVal) → Option Binding
  | b, [] => some b
  | b, (k, v) :: rest =>
    match alookup b k with
    | some v0 => if v = v0 then merge_binding (pyInsert b k v) rest else none
    | none => merge_binding (pyInsert b k v) rest

/-- `merge_binding_collections(bindings1, bindings2)`: Cartesian product,
keeping the consistently merged pairs. -/
def merge_binding_collections (bs1 bs2 : List Binding) : List Binding :=
  (pyProduct bs1 bs2).filterMap fun p => merge_binding p.1 p.2

/-- The per-clause binding lists of `get_valid_bindings` (clause order). -/
def collectBindings : List (List QTerm) → List Datom → PyVal →
    Except PyError (List (List Binding))
  | [], _, _ => .ok []
  | c :: rest, store, cutoff =>
    match cursor_for c store cutoff with
    | .error e => .error e
    | .ok docs =>
      match collectBindings rest store cutoff with
      | .error e => .error e
      | .ok later => .ok (docs.filterMap (doc_binding c) :: later)

/-- `get_valid_bindings(conditions, coll_hof)`: per-clause binding lists,
then `functools.reduce(merge_binding_collections, ...)` (which raises
`TypeError` on an empty sequence). -/
def get_valid_bindings (conds : List (List QTerm)) (store : List Datom)
    (cutoff : PyVal) : Except PyError (List Binding) :=
  match collectBindings conds store cutoff with
  | .error e => .error e
  | .ok [] => .error (.typeErr "reduce of empty iterable with no initial value")
  | .ok (h :: t) => .ok (t.foldl merge_binding_collections h)

/-- Modelled from the spec (for comparison with `collectBindings`): the same
per-clause lists built with `spec_doc_binding` (the empty binding kept). -/
def spec_collectBindings : List (List QTerm) → List Datom → PyVal →
    Except PyError (List (List Binding))
  | [], _, _ => .ok []
  | c :: rest, store, cutoff =>
    match cursor_for c store cutoff with
    | .error e => .error e
    | .ok docs =>
      match spec_collectBindings rest store cutoff with
      | .error e => .error e
      | .ok later => .ok (docs.filterMap (spec_doc_binding c) :: later)

/-- Modelled from the spec (for comparison with `get_valid_bindings`): the
left fold of the spec-side per-clause binding lists. -/
def spec_valid_bindings (conds : List (List QTerm)) (store : List Datom)
    (cutoff : PyVal) : Except PyError (List Binding) :=
  match spec_collectBindings conds store cutoff with
  | .error e => .error e
  | .ok [] => .error (.typeErr "reduce of empty iterable with no initial value")
  | .ok (h :: t) => .ok (t.foldl merge_binding_collections h)

/-- C4 (counterexample): with one all-ground clause and one matching
document, `get_valid_bindings` returns no bindings — `doc_binding` turns the
empty (falsy) binding of a variable-free clause into `None` — while the
claim's semantics keeps the empty binding for each agreeing row. -/
theorem valid_bindings_empty_binding_cex :
    get_valid_bindings [[.lit (.oid 1 0), .lit (.oid 2 0), .lit (.oid 3 0)]]
        [⟨.oid 1 0, .oid 2 0, .oid 3 0, .oid 4 0, true⟩] (.oid 9 9)
      ≠ spec_valid_bindings [[.lit (.oid 1 0), .lit (.oid 2 0), .lit (.oid 3 0)]]
        [⟨.oid 1 0, .oid 2 0, .oid 3 0, .oid 4 0, true⟩] (.oid 9 9) := by decide

lemma mem_keys_of_alookup {α β : Type} [DecidableEq α] :
    ∀ {l : List (α × β)} {k : α} {v : β}, alookup l k = some v → k ∈ l.map Prod.fst := by
  intro l
  induction l with
  | nil =>
    intro k v h
    cases h
  | cons p rest ih =>
    intro k v h
    obtain ⟨k0, v0⟩ := p
    show k ∈ k0 :: rest.map Prod.fst
    by_cases h0 : k0 = k
    · rw [h0]
      exact List.mem_cons_self _ _
    · unfold alookup at h
      rw [if_neg h0] at h
      exact List.mem_cons_of_mem _ (ih h)

lemma merge_binding_spec : ∀ (b2 : List (String × PyVal)) (b1 b : Binding),
    (b2.map Prod.fst).Nodup →
    (merge_binding b1 b2 = some b ↔
      (∀ k v1 v2, alookup b1 k = some v1 → alookup b2 k = some v2 → v1 = v2) ∧
      b = b2.foldl (fun acc p => pyInsert acc p.1 p.2) b1) := by
  intro b2
  induction b2 with
  | nil =>
    intro b1 b hnd
    constructor
    · intro h
      injection h with h
      subst h
      refine ⟨?_, rfl⟩
      intro k v1 v2 h1 h2
      cases h2
    · rintro ⟨-, rfl⟩
      rfl
  | cons p rest ih =>
    obtain ⟨k, v⟩ := p
    intro b1 b hnd
    rw [List.map_cons, List.nodup_cons] at hnd
    obtain ⟨hknotin, hndr⟩ := hnd
    have hcons : ∀ k' v2, alookup ((k, v) :: rest) k' = some v2 ↔
        (if k = k' then some v else alookup rest k') = some v2 := by
      intro k' v2
      constructor <;> (intro h; exact h)
    show (match alookup b1 k with
      | some v0 => if v = v0 then merge_binding (pyInsert b1 k v) rest else none
      | none => merge_binding (pyInsert b1 k v) rest) = some b ↔ _
    cases hl : alookup b1 k with
    | none =>
      rw [ih (pyInsert b1 k v) b hndr]
      constructor
      · rintro ⟨hcomp, rfl⟩
        refine ⟨?_, rfl⟩
        intro k' v1 v2 h1 h2
        rw [hcons] at h2
        by_cases hk : k = k'
        · rw [← hk, hl] at h1
          cases h1
        · rw [if_neg hk] at h2
          refine hcomp k' v1 v2 ?_ h2
          rw [alookup_pyInsert, if_neg hk]
          exact h1
      · rintro ⟨hcomp, rfl⟩
        refine ⟨?_, rfl⟩
        intro k' v1 v2 h1 h2
        by_cases hk : k = k'
        · exfalso
          apply hknotin
          rw [← hk] at h2
          exact mem_keys_of_alookup h2
        · rw [alookup_pyInsert, if_neg hk] at h1
          refine hcomp k' v1 v2 h1 ?_
          rw [hcons, if_neg hk]
          exact h2
    | some v0 =>
      show (if v = v0 then merge_binding (pyInsert b1 k v) rest else none) = some b ↔ _
      by_cases hv : v = v0
      · rw [if_pos hv]
        rw [ih (pyInsert b1 k v) b hndr]
        constructor
        · rintro ⟨hcomp, rfl⟩
          refine ⟨?_, rfl⟩
          intro k' v1 v2 h1 h2
          rw [hcons] at h2
          by_cases hk : k = k'
          · subst hk
            rw [hl] at h1
            injection h1 with h1
            rw [if_pos rfl] at h2
            injection h2 with h2
            rw [← h1, ← h2, hv]
          · rw [if_neg hk] at h2
            refine hcomp k' v1 v2 ?_ h2
            rw [alookup_pyInsert, if_neg hk]
            exact h1
        · rintro ⟨hcomp, rfl⟩
          refine ⟨?_, rfl⟩
          intro k' v1 v2 h1 h2
          by_cases hk : k = k'
          · exfalso
            apply hknotin
            rw [← hk] at h2
            exact mem_keys_of_alookup h2
          · rw [alookup_pyInsert, if_neg hk] at h1
            refine hcomp k' v1 v2 h1 ?_
            rw [hcons, if_neg hk]
            exact h2
      · rw [if_neg hv]
        constructor
        · intro h
          cases h
        · rintro ⟨hcomp, -⟩
          exfalso
          apply hv
          have := hcomp k v0 v hl (by rw [hcons, if_pos rfl])
          rw [this]

lemma merge_collections_mem (B1 B2 : List Binding)
    (hnd : ∀ b2 ∈ B2, (b2.map Prod.fst).Nodup) (b : Binding) :
    b ∈ merge_binding_collections B1 B2 ↔
      ∃ b1 ∈ B1, ∃ b2 ∈ B2,
        (∀ k v1 v2, alookup b1 k = some v1 → alookup b2 k = some v2 → v1 = v2) ∧
        b = b2.foldl (fun acc p => pyInsert acc p.1 p.2) b1 := by
  unfold merge_binding_collections pyProduct
  rw [List.mem_filterMap]
  constructor
  · rintro ⟨⟨b1, b2⟩, hp, hm⟩
    rw [List.mem_flatMap] at hp
    obtain ⟨a, ha, hab⟩ := hp
    obtain ⟨c, hc, hck⟩ := List.mem_map.mp hab
    injection hck with hk1 hk2
    subst hk1
    subst hk2
    exact ⟨a, ha, c, hc, (merge_binding_spec c a b (hnd c hc)).mp hm⟩
  · rintro ⟨b1, hb1, b2, hb2, hc, hb⟩
    refine ⟨(b1, b2), ?_, (merge_binding_spec b2 b1 b (hnd b2 hb2)).mpr ⟨hc, hb⟩⟩
    rw [List.mem_flatMap]
    exact ⟨b1, hb1, List.mem_map_of_mem _ hb2⟩

/-- C4 (amended): the valid bindings are the left fold, in textual clause
order, of the per-clause binding lists under a merge that takes the
Cartesian product and keeps exactly the consistently merged pairs; but a
cursor row yields a binding only when it binds at least one variable: a row
matching an all-ground clause produces the empty (falsy) binding, which
`doc_binding` discards, so such a clause contributes an empty binding list
(not a list of empty bindings). -/
theorem valid_bindings_semantics :
    (∀ (c : List QTerm) (d : Datom), doc_binding c d
      = if spec_doc_binding c d = some [] then none else spec_doc_binding c d) ∧
    (∀ (B1 B2 : List Binding), (∀ b2 ∈ B2, (b2.map Prod.fst).Nodup) →
      ∀ b : Binding, b ∈ merge_binding_collections B1 B2 ↔
        ∃ b1 ∈ B1, ∃ b2 ∈ B2,
          (∀ k v1 v2, alookup b1 k = some v1 → alookup b2 k = some v2 → v1 = v2) ∧
          b = b2.foldl (fun acc p => pyInsert acc p.1 p.2) b1) ∧
    (∀ conds store cutoff h t,
      collectBindings conds store cutoff = .ok (h :: t) →
      get_valid_bindings conds store cutoff = .ok (t.foldl merge_binding_collections h)) ∧
    (∀ (c : List QTerm) (docs : List Datom),
      docs.filterMap (doc_binding c)
        = (docs.filterMap (spec_doc_binding c)).filter fun b => !b.isEmpty) := by
  have hdoc : ∀ (c : List QTerm) (d : Datom), doc_binding c d
      = if spec_doc_binding c d = some [] then none else spec_doc_binding c d := by
    intro c d
    unfold doc_binding spec_doc_binding
    cases h : bindLoop (c.zip [d.e, d.a, d.v]) [] with
    | none => simp
    | some b =>
      by_cases hb : b = [] <;> simp [hb]
  refine ⟨hdoc, fun B1 B2 hnd b => merge_collections_mem B1 B2 hnd b, ?_, ?_⟩
  · intro conds store cutoff h t hc
    unfold get_valid_bindings
    rw [hc]
  · intro c docs
    induction docs with
    | nil => rfl
    | cons d rest ih =>
      rw [List.filterMap_cons, List.filterMap_cons, hdoc c d]
      cases hs : spec_doc_binding c d with
      | none => simp [ih]
      | some b =>
        by_cases hb : b = []
        · subst hb
          simp [ih]
        · rw [if_neg (by simp [hb])]
          have : b.isEmpty = false := by
            cases b with
            | nil => exact absurd rfl hb
            | cons x xs => rfl
          simp [this, ih]

/-! ### URI compaction (`prefix_compact`): C8 -/

/-- The loop of `prefix_compact` over one URI string value: scan the prefix
map in insertion order and rewrite with the FIRST prefix whose expansion the
value starts with (`break` after the first hit); Python's
`v.split(expanded, 1)` raises `ValueError` on an empty separator. -/
def compactLoop : List (String × String) → String → Except PyError PyVal
  | [], s => .ok (.str s)
  | (p, e) :: rest, s =>
    if e.data.isPrefixOf s.data then
      if e = "" then .error (.valueErr "empty separator")
      else .ok (.str (p ++ ":" ++ String.mk (s.data.drop e.data.length)))
    else compactLoop rest s

/-- One value of `prefix_compact`: only URI strings are rewritten. -/
def compact_val (pfxs : List (String × String)) : PyVal → Except PyError PyVal
  | .str s => if uriMatch s then compactLoop pfxs s else .ok (.str s)
  | v => .ok v

/-- One binding of `prefix_compact`: rebuild the dict entrywise. -/
def compactBinding (pfxs : List (String × String)) : Binding → Except PyError Binding
  | [] => .ok []
  | (k, v) :: rest =>
    match compact_val pfxs v with
    | .error e => .error e
    | .ok v2 =>
      match compactBinding pfxs rest with
      | .error e => .error e
      | .ok rest2 => .ok ((k, v2) :: rest2)

/-- `prefix_compact(bindings, use_prefixes)` over `PREFIXES ⊕ use_prefixes`. -/
def prefix_compact (bindings : List Binding) (ups : List (String × String)) :
    Except PyError (List Binding) :=
  go (pyUpdate PREFIXES ups) bindings
where go (pfxs : List (String × String)) : List Binding → Except PyError (List Binding)
  | [] => .ok []
  | b :: rest =>
    match compactBinding pfxs b with
    | .error e => .error e
    | .ok b2 =>
      match go pfxs rest with
      | .error e => .error e
      | .ok rest2 => .ok (b2 :: rest2)

/-- The first-match compaction of one value, phrased through `List.find?`
(what the code computes on the success path). -/
def first_match_val (pfxs : List (String × String)) : PyVal → PyVal
  | .str s =>
    if uriMatch s then
      match pfxs.find? fun pe => pe.2.data.isPrefixOf s.data with
      | some (p, e) => .str (p ++ ":" ++ String.mk (s.data.drop e.data.length))
      | none => .str s
    else .str s
  | v => v

/-- Modelled from the spec (for comparison with `compact_val`): compaction
preferring the LONGEST matching expansion. -/
def spec_longest_compact_val (pfxs : List (String × String)) : PyVal → PyVal
  | .str s =>
    if uriMatch s then
      match (pfxs.filter fun pe => pe.2.data.isPrefixOf s.data).foldl
          (fun best pe =>
            match best with
            | none => some pe
            | some b => if b.2.data.length < pe.2.data.length then some pe else best)
          none with
      | some (p, e) => .str (p ++ ":" ++ String.mk (s.data.drop e.data.length))
      | none => .str s
    else .str s
  | v => v

/-- C8 (counterexample): with caller prefixes whose expansions nest,
`prefix_compact` rewrites with the first matching expansion in insertion
order, not the longest one: the value `s://h/x#y` becomes `zz:x#y` although
the longest matching expansion is `bb`'s `s://h/x#`. -/
theorem prefix_compact_longest_cex :
    prefix_compact [[("?k", .str "s://h/x#y")]] [("zz", "s://h/"), ("bb", "s://h/x#")]
        = .ok [[("?k", .str "zz:x#y")]] ∧
    spec_longest_compact_val
        (pyUpdate PREFIXES [("zz", "s://h/"), ("bb", "s://h/x#")])
        (.str "s://h/x#y")
      = .str "bb:y" ∧
    (PyVal.str "zz:x#y") ≠ (PyVal.str "bb:y") := by decide

lemma compactLoop_first_match : ∀ (pfxs : List (String × String)) (s : String) (v : PyVal),
    compactLoop pfxs s = .ok v →
    v = match pfxs.find? fun pe => pe.2.data.isPrefixOf s.data with
        | some (p, e) => .str (p ++ ":" ++ String.mk (s.data.drop e.data.length))
        | none => .str s := by
  intro pfxs
  induction pfxs with
  | nil =>
    intro s v h
    injection h with h
    rw [← h]
    rfl
  | cons pe rest ih =>
    obtain ⟨p, e⟩ := pe
    intro s v h
    unfold compactLoop at h
    by_cases hp : e.data.isPrefixOf s.data
    · rw [if_pos hp] at h
      by_cases he : e = ""
      · rw [if_pos he] at h
        cases h
      · rw [if_neg he] at h
        injection h with h
        rw [← h, List.find?_cons_of_pos _ (by exact hp)]
    · rw [if_neg hp] at h
      rw [List.find?_cons_of_neg _ (by simpa using hp)]
      exact ih s v h

lemma compact_val_first_match (pfxs : List (String × String)) (v v2 : PyVal)
    (h : compact_val pfxs v = .ok v2) : v2 = first_match_val pfxs v := by
  cases v with
  | str s =>
    simp only [compact_val] at h
    simp only [first_match_val]
    by_cases hu : uriMatch s
    · rw [if_pos hu] at h ⊢
      exact compactLoop_first_match pfxs s v2 h
    · rw [if_neg hu] at h
      rw [if_neg hu]
      injection h with h
      exact h.symm
  | oid a b =>
    simp only [compact_val] at h
    injection h with h
    exact h.symm
  | int n =>
    simp only [compact_val] at h
    injection h with h
    exact h.symm
  | dt n =>
    simp only [compact_val] at h
    injection h with h
    exact h.symm
  | bool b =>
    simp only [compact_val] at h
    injection h with h
    exact h.symm

lemma compactBinding_first_match : ∀ (pfxs : List (String × String)) (b b2 : Binding),
    compactBinding pfxs b = .ok b2 →
    b2 = b.map fun kv => (kv.1, first_match_val pfxs kv.2) := by
  intro pfxs b
  induction b with
  | nil =>
    intro b2 h
    injection h with h
    rw [← h]
    rfl
  | cons kv rest ih =>
    obtain ⟨k, v⟩ := kv
    intro b2 h
    unfold compactBinding at h
    cases hv : compact_val pfxs v with
    | error e =>
      rw [hv] at h
      cases h
    | ok v2 =>
      simp only [hv] at h
      cases hr : compactBinding pfxs rest with
      | error e =>
        rw [hr] at h
        cases h
      | ok rest2 =>
        simp only [hr] at h
        injection h with h
        rw [← h, List.map_cons]
        rw [← compact_val_first_match pfxs v v2 hv, ← ih rest2 hr]

/-- C8 (amended): `prefix_compact` rewrites each URI-string value using the
FIRST matching expansion in insertion order of `PREFIXES ⊕ caller prefixes`
(not the longest); values matched by no expansion, and non-URI values, are
returned unchanged (all captured by `first_match_val`). -/
theorem prefix_compact_first_match (bindings : List Binding)
    (ups : List (String × String)) (out : List Binding)
    (h : prefix_compact bindings ups = .ok out) :
    out = bindings.map fun b =>
      b.map fun kv => (kv.1, first_match_val (pyUpdate PREFIXES ups) kv.2) := by
  unfold prefix_compact at h
  induction bindings generalizing out with
  | nil =>
    injection h with h
    rw [← h]
    rfl
  | cons b rest ih =>
    unfold prefix_compact.go at h
    cases hb : compactBinding (pyUpdate PREFIXES ups) b with
    | error e =>
      rw [hb] at h
      cases h
    | ok b2 =>
      simp only [hb] at h
      cases hr : prefix_compact.go (pyUpdate PREFIXES ups) rest with
      | error e =>
        rw [hr] at h
        cases h
      | ok rest2 =>
        simp only [hr] at h
        injection h with h
        rw [← h, List.map_cons]
        rw [← compactBinding_first_match _ b b2 hb, ← ih rest2 hr]

/-- Witness for C8 (amended) at a concrete input: one binding with a
`qudt:`-compactable URI and a non-URI value. -/
theorem prefix_compact_first_match_witness :
    ([[("?k", PyVal.str "qudt:value"), ("?n", PyVal.int 5)]] : List Binding)
      = ([[("?k", PyVal.str "http://qudt.org/schema/qudt#value"),
           ("?n", PyVal.int 5)]] : List Binding).map fun b =>
        b.map fun kv => (kv.1, first_match_val (pyUpdate PREFIXES []) kv.2) :=
  prefix_compact_first_match
    [[("?k", PyVal.str "http://qudt.org/schema/qudt#value"), ("?n", PyVal.int 5)]]
    [] [[("?k", PyVal.str "qudt:value"), ("?n", PyVal.int 5)]] (by decide)

/-! ### Reverse reference resolution (`refs_for`): C5 -/

/-- The filter `{E: {"$in": oids}, A: {"$in": [OID_URIREF, OID_VAEM_ID]}}`
passed to the higher-order collection cursor by `refs_for`. -/
def refsFilter (oids : List PyVal) : Filter :=
  [("e", .ops [("$in", .arr oids)]),
   ("a", .ops [("$in", .arr [OID_URIREF, OID_VAEM_ID])])]

/-- The accumulation loop of `refs_for` over the fetched documents: a
`vaem:id` document inserts the `"_:" ++ encode_id` fallback, but only when
its entity has no entry yet; a `uriref` document overwrites its entity's
entry unconditionally. `encode_id` on a non-integer value raises
`TypeError`, on a negative integer `ValueError` (`base32_lib.encode`). -/
def refs_loop : List Datom → List (PyVal × PyVal) → Except PyError (List (PyVal × PyVal))
  | [], out => .ok out
  | d :: rest, out =>
    if d.a = OID_VAEM_ID ∧ alookup out d.e = none then
      match d.v with
      | .int n =>
        if 0 ≤ n then
          refs_loop rest (pyInsert out d.e (.str ("_:" ++ encode_id n.toNat)))
        else .error (.valueErr "number must be nonnegative")
      | _ => .error (.typeErr "unsupported operand type for encode")
    else if d.a = OID_URIREF then refs_loop rest (pyInsert out d.e d.v)
    else refs_loop rest out

/-- `refs_for(oids, coll_hof)` over an `as_of` view: fetch the visible
documents with `e ∈ oids` and `a ∈ {uriref, vaem:id}`, accumulate the
entity-to-reference dict, and raise `RuntimeError` unless every requested
oid was resolved (`len(oids) != len(out)`). -/
def refs_for (oids : List PyVal) (store : List Datom) (cutoff : PyVal) :
    Except PyError (List (PyVal × PyVal)) :=
  match refs_loop (docs_for store cutoff (refsFilter oids)).2 [] with
  | .error e => .error e
  | .ok out =>
    if oids.length ≠ out.length then
      .error (.runtimeErr "oids have no refs or IDs")
    else .ok out

/-- The first fetched document asserting a URI reference for entity `i`. -/
def findUriDoc (ds : List Datom) (i : PyVal) : Option Datom :=
  ds.find? fun d => (d.e = i : Bool) && (d.a = OID_URIREF : Bool)

/-- The first fetched document asserting a shareable ID for entity `i`. -/
def findVaemDoc (ds : List Datom) (i : PyVal) : Option Datom :=
  ds.find? fun d => (d.e = i : Bool) && (d.a = OID_VAEM_ID : Bool)

/-- `"_:" + encode_id(v)` for an integer value; `none` when `encode_id`
would raise. -/
def encVal : PyVal → Option PyVal
  | .int n => if 0 ≤ n then some (.str ("_:" ++ encode_id n.toNat)) else none
  | _ => none

/-- The reference `refs_loop` resolves for entity `i` given documents `ds`
and an accumulated dict `out`: the URI of the first `uriref` document if
there is one (URIs win), else the accumulated entry, else the encoded
shareable ID of the first `vaem:id` document. -/
def refsSpecLookup (ds : List Datom) (out : List (PyVal × PyVal)) (i : PyVal) :
    Option PyVal :=
  match findUriDoc ds i with
  | some d => some d.v
  | none =>
    match alookup out i with
    | some v => some v
    | none =>
      match findVaemDoc ds i with
      | some d => encVal d.v
      | none => none

lemma alookup_isSome_iff_mem_keys {α β : Type} [DecidableEq α] :
    ∀ {m : List (α × β)} {k : α},
      (alookup m k).isSome = true ↔ k ∈ m.map Prod.fst := by
  intro m
  induction m with
  | nil =>
    intro k
    simp [alookup]
  | cons p rest ih =>
    intro k
    obtain ⟨k0, v0⟩ := p
    show (if k0 = k then some v0 else alookup rest k).isSome = true
        ↔ k ∈ k0 :: rest.map Prod.fst
    by_cases h0 : k0 = k
    · simp [h0]
    · rw [if_neg h0, ih]
      constructor
      · exact fun h => List.mem_cons_of_mem _ h
      · intro h
        rcases List.mem_cons.mp h with h | h
        · exact absurd h.symm h0
        · exact h

lemma keys_pyInsert_iff {α β : Type} [DecidableEq α] (m : List (α × β)) (k : α)
    (v : β) (x : α) :
    x ∈ (pyInsert m k v).map Prod.fst ↔ x = k ∨ x ∈ m.map Prod.fst := by
  rw [← alookup_isSome_iff_mem_keys, ← alookup_isSome_iff_mem_keys, alookup_pyInsert]
  by_cases h : k = x
  · simp [h]
  · rw [if_neg h]
    have h' : x ≠ k := fun hx => h hx.symm
    simp [h']

lemma keys_pyInsert_nodup {α β : Type} [DecidableEq α] :
    ∀ (m : List (α × β)), (m.map Prod.fst).Nodup → ∀ (k : α) (v : β),
      ((pyInsert m k v).map Prod.fst).Nodup := by
  intro m
  induction m with
  | nil =>
    intro _ k v
    simp [pyInsert]
  | cons p rest ih =>
    intro h k v
    obtain ⟨k0, v0⟩ := p
    rw [List.map_cons, List.nodup_cons] at h
    show ((if k0 = k then (k, v) :: rest
           else (k0, v0) :: pyInsert rest k v).map Prod.fst).Nodup
    by_cases h0 : k0 = k
    · rw [if_pos h0, List.map_cons, List.nodup_cons]
      exact ⟨h0 ▸ h.1, h.2⟩
    · rw [if_neg h0, List.map_cons, List.nodup_cons]
      refine ⟨?_, ih h.2 k v⟩
      intro hmem
      rcases (keys_pyInsert_iff rest k v k0).mp hmem with h1 | h1
      · exact h0 h1
      · exact h.1 h1

lemma length_eq_iff_cover {α : Type} [DecidableEq α] (oids keys : List α)
    (hnd : oids.Nodup) (hknd : keys.Nodup) (hsub : ∀ x ∈ keys, x ∈ oids) :
    oids.length = keys.length ↔ ∀ x ∈ oids, x ∈ keys := by
  have hks : keys.toFinset ⊆ oids.toFinset := by
    intro x hx
    rw [List.mem_toFinset] at hx ⊢
    exact hsub x hx
  constructor
  · intro hlen x hx
    have hcard : oids.toFinset.card ≤ keys.toFinset.card := by
      rw [List.toFinset_card_of_nodup hnd, List.toFinset_card_of_nodup hknd, hlen]
    have heq := Finset.eq_of_subset_of_card_le hks hcard
    have hx2 : x ∈ oids.toFinset := List.mem_toFinset.mpr hx
    rw [← heq] at hx2
    exact List.mem_toFinset.mp hx2
  · intro hcov
    have heq : oids.toFinset = keys.toFinset := by
      apply Finset.Subset.antisymm
      · intro x hx
        rw [List.mem_toFinset] at hx ⊢
        exact hcov x hx
      · exact hks
    rw [← List.toFinset_card_of_nodup hnd, ← List.toFinset_card_of_nodup hknd, heq]

lemma findUriDoc_cons_skip {d : Datom} {rest : List Datom} {i : PyVal}
    (h : d.e ≠ i ∨ d.a ≠ OID_URIREF) :
    findUriDoc (d :: rest) i = findUriDoc rest i := by
  unfold findUriDoc
  apply List.find?_cons_of_neg
  simp only [Bool.and_eq_true, decide_eq_true_eq]
  tauto

lemma findUriDoc_cons_hit {d : Datom} {rest : List Datom} {i : PyVal}
    (he : d.e = i) (ha : d.a = OID_URIREF) :
    findUriDoc (d :: rest) i = some d := by
  unfold findUriDoc
  apply List.find?_cons_of_pos
  simp [he, ha]

lemma findVaemDoc_cons_skip {d : Datom} {rest : List Datom} {i : PyVal}
    (h : d.e ≠ i ∨ d.a ≠ OID_VAEM_ID) :
    findVaemDoc (d :: rest) i = findVaemDoc rest i := by
  unfold findVaemDoc
  apply List.find?_cons_of_neg
  simp only [Bool.and_eq_true, decide_eq_true_eq]
  tauto

lemma findVaemDoc_cons_hit {d : Datom} {rest : List Datom} {i : PyVal}
    (he : d.e = i) (ha : d.a = OID_VAEM_ID) :
    findVaemDoc (d :: rest) i = some d := by
  unfold findVaemDoc
  apply List.find?_cons_of_pos
  simp [he, ha]

lemma refs_loop_spec :
    ∀ (ds : List Datom) (out : List (PyVal × PyVal)),
      (∀ d ∈ ds, d.a = OID_URIREF ∨ d.a = OID_VAEM_ID) →
      (∀ d ∈ ds, d.a = OID_VAEM_ID → ∃ n : Nat, d.v = PyVal.int (n : Int)) →
      (∀ d1 ∈ ds, ∀ d2 ∈ ds, d1.e = d2.e → d1.a = d2.a → d1.v = d2.v) →
      ∃ res, refs_loop ds out = .ok res ∧
        (∀ i, alookup res i = refsSpecLookup ds out i) ∧
        ((out.map Prod.fst).Nodup → (res.map Prod.fst).Nodup) := by
  intro ds
  induction ds with
  | nil =>
    intro out _ _ _
    refine ⟨out, rfl, ?_, fun h => h⟩
    intro i
    unfold refsSpecLookup
    cases h : alookup out i <;> simp [findUriDoc, findVaemDoc, h]
  | cons d rest ih =>
    intro out hattr hvaem huniq
    have hattr' : ∀ x ∈ rest, x.a = OID_URIREF ∨ x.a = OID_VAEM_ID :=
      fun x hx => hattr x (List.mem_cons_of_mem _ hx)
    have hvaem' : ∀ x ∈ rest, x.a = OID_VAEM_ID → ∃ n : Nat, x.v = PyVal.int (n : Int) :=
      fun x hx => hvaem x (List.mem_cons_of_mem _ hx)
    have huniq' : ∀ d1 ∈ rest, ∀ d2 ∈ rest, d1.e = d2.e → d1.a = d2.a → d1.v = d2.v :=
      fun d1 h1 d2 h2 =>
        huniq d1 (List.mem_cons_of_mem _ h1) d2 (List.mem_cons_of_mem _ h2)
    have hUV : OID_URIREF ≠ OID_VAEM_ID := by decide
    by_cases hcond : d.a = OID_VAEM_ID ∧ alookup out d.e = none
    · obtain ⟨n, hv⟩ := hvaem d (List.mem_cons_self _ _) hcond.1
      have h0 : (0 : Int) ≤ (n : Int) := Int.natCast_nonneg n
      have hstep : refs_loop (d :: rest) out
          = refs_loop rest (pyInsert out d.e (.str ("_:" ++ encode_id n))) := by
        simp only [refs_loop, hv]
        rw [if_pos hcond, if_pos h0, Int.toNat_natCast]
      obtain ⟨res, hok, hlk, hnod⟩ :=
        ih (pyInsert out d.e (.str ("_:" ++ encode_id n))) hattr' hvaem' huniq'
      refine ⟨res, by rw [hstep]; exact hok, ?_,
        fun h => hnod (keys_pyInsert_nodup out h d.e (.str ("_:" ++ encode_id n)))⟩
      intro i
      rw [hlk i]
      have hskip : findUriDoc (d :: rest) i = findUriDoc rest i :=
        findUriDoc_cons_skip (Or.inr (by rw [hcond.1]; exact Ne.symm hUV))
      by_cases hi : i = d.e
      · cases hfu : findUriDoc rest i with
        | some u => simp only [refsSpecLookup, hskip, hfu]
        | none =>
          simp only [refsSpecLookup, hskip, hfu]
          have hl1 : alookup (pyInsert out d.e (.str ("_:" ++ encode_id n))) i
              = some (.str ("_:" ++ encode_id n)) := by
            rw [alookup_pyInsert, if_pos hi.symm]
          have ha0 : alookup out i = none := by
            rw [hi]
            exact hcond.2
          have hfv : findVaemDoc (d :: rest) i = some d :=
            findVaemDoc_cons_hit hi.symm hcond.1
          simp only [hl1, ha0, hfv, hv, encVal]
          rw [if_pos h0, Int.toNat_natCast]
      · have hne : d.e ≠ i := fun h => hi h.symm
        cases hfu : findUriDoc rest i with
        | some u => simp only [refsSpecLookup, hskip, hfu]
        | none =>
          simp only [refsSpecLookup, hskip, hfu]
          have hl : alookup (pyInsert out d.e (.str ("_:" ++ encode_id n))) i
              = alookup out i := by
            rw [alookup_pyInsert, if_neg hne]
          cases ha : alookup out i with
          | some v => simp only [hl, ha]
          | none =>
            simp only [hl, ha]
            have hfv : findVaemDoc (d :: rest) i = findVaemDoc rest i :=
              findVaemDoc_cons_skip (Or.inl hne)
            rw [hfv]
    · by_cases hda : d.a = OID_URIREF
      · have hstep : refs_loop (d :: rest) out
            = refs_loop rest (pyInsert out d.e d.v) := by
          simp only [refs_loop]
          rw [if_neg hcond, if_pos hda]
        obtain ⟨res, hok, hlk, hnod⟩ :=
          ih (pyInsert out d.e d.v) hattr' hvaem' huniq'
        refine ⟨res, by rw [hstep]; exact hok, ?_,
          fun h => hnod (keys_pyInsert_nodup out h d.e d.v)⟩
        intro i
        rw [hlk i]
        by_cases hi : i = d.e
        · have hhit : findUriDoc (d :: rest) i = some d :=
            findUriDoc_cons_hit hi.symm hda
          cases hfu : findUriDoc rest i with
          | some u =>
            have hu' : List.find?
                (fun x => (x.e = i : Bool) && (x.a = OID_URIREF : Bool)) rest
                = some u := hfu
            have hup := List.find?_some hu'
            have hum := List.mem_of_find?_eq_some hu'
            simp only [Bool.and_eq_true, decide_eq_true_eq] at hup
            have huv : u.v = d.v :=
              huniq u (List.mem_cons_of_mem _ hum) d (List.mem_cons_self _ _)
                (by rw [hup.1, hi]) (by rw [hup.2, hda])
            simp only [refsSpecLookup, hfu, hhit, huv]
          | none =>
            simp only [refsSpecLookup, hfu, hhit]
            have hl : alookup (pyInsert out d.e d.v) i = some d.v := by
              rw [alookup_pyInsert, if_pos hi.symm]
            simp only [hl]
        · have hne : d.e ≠ i := fun h => hi h.symm
          have hskip : findUriDoc (d :: rest) i = findUriDoc rest i :=
            findUriDoc_cons_skip (Or.inl hne)
          cases hfu : findUriDoc rest i with
          | some u => simp only [refsSpecLookup, hskip, hfu]
          | none =>
            simp only [refsSpecLookup, hskip, hfu]
            have hl : alookup (pyInsert out d.e d.v) i = alookup out i := by
              rw [alookup_pyInsert, if_neg hne]
            cases ha : alookup out i with
            | some v => simp only [hl, ha]
            | none =>
              simp only [hl, ha]
              have hfv : findVaemDoc (d :: rest) i = findVaemDoc rest i :=
                findVaemDoc_cons_skip (Or.inl hne)
              rw [hfv]
      · have hda2 : d.a = OID_VAEM_ID :=
          (hattr d (List.mem_cons_self _ _)).resolve_left hda
        have hsome : alookup out d.e ≠ none := fun h => hcond ⟨hda2, h⟩
        have hstep : refs_loop (d :: rest) out = refs_loop rest out := by
          simp only [refs_loop]
          rw [if_neg hcond, if_neg hda]
        obtain ⟨res, hok, hlk, hnod⟩ := ih out hattr' hvaem' huniq'
        refine ⟨res, by rw [hstep]; exact hok, ?_, hnod⟩
        intro i
        rw [hlk i]
        have hskip : findUriDoc (d :: rest) i = findUriDoc rest i :=
          findUriDoc_cons_skip (Or.inr hda)
        cases hfu : findUriDoc rest i with
        | some u => simp only [refsSpecLookup, hskip, hfu]
        | none =>
          simp only [refsSpecLookup, hskip, hfu]
          cases ha : alookup out i with
          | some v => simp only [ha]
          | none =>
            simp only [ha]
            have hne : d.e ≠ i := fun h => hsome (by rw [h]; exact ha)
            have hfv : findVaemDoc (d :: rest) i = findVaemDoc rest i :=
              findVaemDoc_cons_skip (Or.inl hne)
            rw [hfv]

lemma matchFilter_refsFilter (d : Datom) (oids : List PyVal) :
    matchFilter d (refsFilter oids)
      = (oids.contains d.e && [OID_URIREF, OID_VAEM_ID].contains d.a) := by
  show ((matchOp "$in" (.arr oids) d.e && true)
      && ((matchOp "$in" (.arr [OID_URIREF, OID_VAEM_ID]) d.a && true) && true)) = _
  simp [matchOp]

lemma mem_refs_vis {store : List Datom} {cutoff : PyVal} {oids : List PyVal}
    {d : Datom} (h : d ∈ (docs_for store cutoff (refsFilter oids)).2) :
    d.e ∈ oids ∧ (d.a = OID_URIREF ∨ d.a = OID_VAEM_ID) := by
  have hset : pySetTLte (refsFilter oids) cutoff
      = refsFilter oids ++ [("t", .ops [("$lte", .scalar cutoff)])] := by
    apply pySetTLte_of_no_t
    intro p hp
    rcases List.mem_cons.mp hp with h1 | h1
    · rw [h1]
      show "e" ≠ "t"
      decide
    · rw [List.mem_singleton.mp h1]
      show "a" ≠ "t"
      decide
  unfold docs_for findDocs at h
  rw [hset] at h
  have h2 := (List.mem_filter.mp h).2
  rw [matchFilter_append_tlte, matchFilter_refsFilter] at h2
  simp only [Bool.and_eq_true] at h2
  refine ⟨contains_iff_mem.mp h2.1.1, ?_⟩
  have h3 := contains_iff_mem.mp h2.1.2
  simpa using h3

lemma refsSpecLookup_isSome {ds : List Datom} {i : PyVal}
    (hattr : ∀ d ∈ ds, d.a = OID_URIREF ∨ d.a = OID_VAEM_ID)
    (hvaem : ∀ d ∈ ds, d.a = OID_VAEM_ID → ∃ n : Nat, d.v = PyVal.int (n : Int)) :
    (refsSpecLookup ds [] i).isSome = true ↔ ∃ d ∈ ds, d.e = i := by
  constructor
  · intro h
    cases hfu : findUriDoc ds i with
    | some u =>
      have hu' : List.find?
          (fun x => (x.e = i : Bool) && (x.a = OID_URIREF : Bool)) ds
          = some u := hfu
      have hup := List.find?_some hu'
      simp only [Bool.and_eq_true, decide_eq_true_eq] at hup
      exact ⟨u, List.mem_of_find?_eq_some hu', hup.1⟩
    | none =>
      cases hfv : findVaemDoc ds i with
      | some w =>
        have hw' : List.find?
            (fun x => (x.e = i : Bool) && (x.a = OID_VAEM_ID : Bool)) ds
            = some w := hfv
        have hwp := List.find?_some hw'
        simp only [Bool.and_eq_true, decide_eq_true_eq] at hwp
        exact ⟨w, List.mem_of_find?_eq_some hw', hwp.1⟩
      | none =>
        exfalso
        rw [show refsSpecLookup ds [] i = none by
          simp only [refsSpecLookup, hfu, hfv, alookup]] at h
        cases h
  · rintro ⟨d, hd, he⟩
    cases hfu : findUriDoc ds i with
    | some u =>
      simp only [refsSpecLookup, hfu, Option.isSome_some]
    | none =>
      rcases hattr d hd with ha | ha
      · exfalso
        have := List.find?_eq_none.mp hfu d hd
        simp only [Bool.and_eq_true, decide_eq_true_eq] at this
        exact this ⟨he, ha⟩
      · have hfvs : (findVaemDoc ds i).isSome = true := by
          unfold findVaemDoc
          rw [List.find?_isSome]
          exact ⟨d, hd, by simp [he, ha]⟩
        obtain ⟨w, hw⟩ := Option.isSome_iff_exists.mp hfvs
        have hw' : List.find?
            (fun x => (x.e = i : Bool) && (x.a = OID_VAEM_ID : Bool)) ds
            = some w := hw
        have hwp := List.find?_some hw'
        simp only [Bool.and_eq_true, decide_eq_true_eq] at hwp
        obtain ⟨n, hn⟩ := hvaem w (List.mem_of_find?_eq_some hw') hwp.2
        simp only [refsSpecLookup, hfu, hw, alookup, hn, encVal]
        rw [if_pos (Int.natCast_nonneg n)]
        simp

lemma refsSpecLookup_uri {ds : List Datom} {i : PyVal} {d : Datom}
    (huniq : ∀ d1 ∈ ds, ∀ d2 ∈ ds, d1.e = d2.e → d1.a = d2.a → d1.v = d2.v)
    (hd : d ∈ ds) (hde : d.e = i) (hda : d.a = OID_URIREF) :
    refsSpecLookup ds [] i = some d.v := by
  have hsome : (findUriDoc ds i).isSome = true := by
    unfold findUriDoc
    rw [List.find?_isSome]
    exact ⟨d, hd, by simp [hde, hda]⟩
  obtain ⟨u, hu⟩ := Option.isSome_iff_exists.mp hsome
  have hu' : List.find?
      (fun x => (x.e = i : Bool) && (x.a = OID_URIREF : Bool)) ds
      = some u := hu
  have hup := List.find?_some hu'
  simp only [Bool.and_eq_true, decide_eq_true_eq] at hup
  have huv : u.v = d.v :=
    huniq u (List.mem_of_find?_eq_some hu') d hd (by rw [hup.1, hde]) (by rw [hup.2, hda])
  simp only [refsSpecLookup, hu, huv]

lemma refsSpecLookup_vaem {ds : List Datom} {i : PyVal} {d : Datom} {n : Nat}
    (huniq : ∀ d1 ∈ ds, ∀ d2 ∈ ds, d1.e = d2.e → d1.a = d2.a → d1.v = d2.v)
    (hnouri : ∀ u ∈ ds, u.e = i → u.a ≠ OID_URIREF)
    (hd : d ∈ ds) (hde : d.e = i) (hda : d.a = OID_VAEM_ID)
    (hdv : d.v = PyVal.int (n : Int)) :
    refsSpecLookup ds [] i = some (.str ("_:" ++ encode_id n)) := by
  have hfu : findUriDoc ds i = none := by
    unfold findUriDoc
    rw [List.find?_eq_none]
    intro u hu hp
    simp only [Bool.and_eq_true, decide_eq_true_eq] at hp
    exact hnouri u hu hp.1 hp.2
  have hfvs : (findVaemDoc ds i).isSome = true := by
    unfold findVaemDoc
    rw [List.find?_isSome]
    exact ⟨d, hd, by simp [hde, hda]⟩
  obtain ⟨w, hw⟩ := Option.isSome_iff_exists.mp hfvs
  have hw' : List.find?
      (fun x => (x.e = i : Bool) && (x.a = OID_VAEM_ID : Bool)) ds
      = some w := hw
  have hwp := List.find?_some hw'
  simp only [Bool.and_eq_true, decide_eq_true_eq] at hwp
  have hwv : w.v = d.v :=
    huniq w (List.mem_of_find?_eq_some hw') d hd (by rw [hwp.1, hde]) (by rw [hwp.2, hda])
  simp only [refsSpecLookup, hfu, hw, alookup, hwv, hdv, encVal]
  rw [if_pos (Int.natCast_nonneg n), Int.toNat_natCast]

/-- C5: over the documents visible through the as-of view (entity among the
requested oids, attribute `uriref` or `vaem:id`) — assuming the requested
oids are distinct, stored `vaem:id` values are nonnegative integers, and
a visible (entity, attribute) pair determines its value — `refs_for`
succeeds exactly when every requested oid has a visible document; on
success an oid with a `uriref` document maps to that document's URI (even
when a `vaem:id` document also exists), an oid with only `vaem:id`
documents maps to `"_:" ++ encode_id` of the stored integer; and when some
requested oid has no visible document it raises `RuntimeError`. -/
theorem refs_for_resolution (oids : List PyVal) (store : List Datom) (cutoff : PyVal)
    (hnd : oids.Nodup)
    (hvaem : ∀ d ∈ (docs_for store cutoff (refsFilter oids)).2,
      d.a = OID_VAEM_ID → ∃ n : Nat, d.v = PyVal.int (n : Int))
    (huniq : ∀ d1 ∈ (docs_for store cutoff (refsFilter oids)).2,
      ∀ d2 ∈ (docs_for store cutoff (refsFilter oids)).2,
      d1.e = d2.e → d1.a = d2.a → d1.v = d2.v) :
    ((∀ i ∈ oids, ∃ d ∈ (docs_for store cutoff (refsFilter oids)).2, d.e = i) ↔
      ∃ out, refs_for oids store cutoff = .ok out) ∧
    (∀ out, refs_for oids store cutoff = .ok out → ∀ i ∈ oids,
      (∀ d ∈ (docs_for store cutoff (refsFilter oids)).2,
        d.e = i → d.a = OID_URIREF → alookup out i = some d.v) ∧
      ((∀ u ∈ (docs_for store cutoff (refsFilter oids)).2,
          u.e = i → u.a ≠ OID_URIREF) →
        ∀ d ∈ (docs_for store cutoff (refsFilter oids)).2, d.e = i →
          ∀ n : Nat, d.v = PyVal.int (n : Int) →
            alookup out i = some (.str ("_:" ++ encode_id n)))) ∧
    ((∃ i ∈ oids, ∀ d ∈ (docs_for store cutoff (refsFilter oids)).2, d.e ≠ i) →
      refs_for oids store cutoff = .error (.runtimeErr "oids have no refs or IDs")) := by
  have hattr : ∀ d ∈ (docs_for store cutoff (refsFilter oids)).2,
      d.a = OID_URIREF ∨ d.a = OID_VAEM_ID := fun d hd => (mem_refs_vis hd).2
  have hein : ∀ d ∈ (docs_for store cutoff (refsFilter oids)).2, d.e ∈ oids :=
    fun d hd => (mem_refs_vis hd).1
  have hrf0 : refs_for oids store cutoff
      = match refs_loop (docs_for store cutoff (refsFilter oids)).2 [] with
        | .error e => .error e
        | .ok out => if oids.length ≠ out.length
            then .error (.runtimeErr "oids have no refs or IDs")
            else .ok out := rfl
  generalize hg : (docs_for store cutoff (refsFilter oids)).2 = ds
    at hattr hein hvaem huniq hrf0 ⊢
  obtain ⟨res, hok, hlk, hnod⟩ := refs_loop_spec ds [] hattr hvaem huniq
  simp only [hok] at hrf0
  have hkey : ∀ i, i ∈ res.map Prod.fst ↔ ∃ d ∈ ds, d.e = i := by
    intro i
    rw [← alookup_isSome_iff_mem_keys, hlk i]
    exact refsSpecLookup_isSome hattr hvaem
  have hknd : (res.map Prod.fst).Nodup := hnod (by simp)
  have hsub : ∀ x ∈ res.map Prod.fst, x ∈ oids := by
    intro x hx
    obtain ⟨d, hd, he⟩ := (hkey x).mp hx
    rw [← he]
    exact hein d hd
  have hcover_iff : oids.length = res.length ↔ ∀ i ∈ oids, ∃ d ∈ ds, d.e = i := by
    rw [show res.length = (res.map Prod.fst).length from (List.length_map _ _).symm,
      length_eq_iff_cover oids (res.map Prod.fst) hnd hknd hsub]
    constructor
    · intro h i hi
      exact (hkey i).mp (h i hi)
    · intro h i hi
      exact (hkey i).mpr (h i hi)
  refine ⟨?_, ?_, ?_⟩
  · constructor
    · intro hcov
      have hlen : oids.length = res.length := hcover_iff.mpr hcov
      exact ⟨res, by rw [hrf0, if_neg (by omega)]⟩
    · rintro ⟨out, hout⟩
      rw [hrf0] at hout
      by_cases hl : oids.length ≠ res.length
      · rw [if_pos hl] at hout
        cases hout
      · exact hcover_iff.mp (by omega)
  · intro out hout i hi
    rw [hrf0] at hout
    by_cases hl : oids.length ≠ res.length
    · rw [if_pos hl] at hout
      cases hout
    · rw [if_neg hl] at hout
      injection hout with hout
      constructor
      · intro d hd hde hda
        rw [← hout, hlk i]
        exact refsSpecLookup_uri huniq hd hde hda
      · intro hnouri d hd hde n hn
        rw [← hout, hlk i]
        exact refsSpecLookup_vaem huniq hnouri hd hde
          ((hattr d hd).resolve_left (hnouri d hd hde)) hn
  · rintro ⟨i, hi, hmiss⟩
    have hncov : ¬ ∀ j ∈ oids, ∃ d ∈ ds, d.e = j := by
      intro hcov
      obtain ⟨d, hd, he⟩ := hcov i hi
      exact hmiss d hd he
    have hlen : oids.length ≠ res.length := fun h => hncov (hcover_iff.mp h)
    rw [hrf0, if_pos hlen]

/-- Witness for C5 at a concrete input: one requested oid whose URI datom
is visible, so `refs_for` succeeds. -/
theorem refs_for_resolution_witness :
    ∃ out, refs_for [PyVal.oid 7 0]
      [⟨PyVal.oid 7 0, OID_URIREF, PyVal.str "s://x", PyVal.oid 1 0, true⟩]
      (PyVal.oid 9 9) = .ok out :=
  (refs_for_resolution [PyVal.oid 7 0]
      [⟨PyVal.oid 7 0, OID_URIREF, PyVal.str "s://x", PyVal.oid 1 0, true⟩]
      (PyVal.oid 9 9)
      (by decide)
      (fun d hd hda => absurd hda
        ((by decide :
          ∀ d ∈ (docs_for
            [⟨PyVal.oid 7 0, OID_URIREF, PyVal.str "s://x", PyVal.oid 1 0, true⟩]
            (PyVal.oid 9 9) (refsFilter [PyVal.oid 7 0])).2,
            d.a ≠ OID_VAEM_ID) d hd))
      (by decide)).1.mp (by decide)

end Maggtomic
